import Mathlib

/-!
Verification development for the incremental directory-synchronization engine
(`sync.py`, the serial variant, and `sync_parallel.py`, the parallel variant).

The Python code is shallowly embedded: pure fragments become Lean functions,
filesystem access becomes explicit oracle structures or an explicit tree model,
Python `float` modification times become `ℚ`, Python strings become `String` or
`List Char`, and fallible code returns `Except`.
-/

set_option autoImplicit false

namespace SyncSpec

/-! ## File comparison (`FileComparer` in both variants)

`compare_by_date` in `sync.py`:

    micro_error = 0 if time_factor < 1e3 else 1
    return int(time_factor * os.path.getmtime(file1)) - micro_error
           <= int(time_factor * os.path.getmtime(file2))

`compare_by_date` in `sync_parallel.py`:

    micro_error = 2
    return time_factor * abs(getmtime(file1) - getmtime(file2)) <= micro_error

`compare_by_hash` (identical in both variants): sizes first, then the streamed
md5 digests; `_calculate_hash` returns the empty string on `IOError`.
-/

/-- Python `int(q)` on a float/rational: truncation toward zero. -/
def pyInt (q : ℚ) : ℤ := if 0 ≤ q then ⌊q⌋ else ⌈q⌉

/-- `micro_error` of the serial `compare_by_date`: `0 if time_factor < 1e3 else 1`. -/
def microErr (tf : ℤ) : ℤ := if tf < 1000 then 0 else 1

/-- Serial `FileComparer.compare_by_date` on the two modification times. -/
def compareByDateSer (tf : ℤ) (m1 m2 : ℚ) : Bool :=
  decide ((pyInt ((tf : ℚ) * m1) - microErr tf : ℤ) ≤ pyInt ((tf : ℚ) * m2))

/-- Parallel `FileComparer.compare_by_date` on the two modification times. -/
def compareByDatePar (tf : ℤ) (m1 m2 : ℚ) : Bool :=
  decide ((tf : ℚ) * |m1 - m2| ≤ 2)

/-- `FileComparer.compare_by_hash` on the two sizes and the two results of
`_calculate_hash` (the digest string, or `""` when reading raised `IOError`). -/
def compareByHash (s1 : ℕ) (d1 : String) (s2 : ℕ) (d2 : String) : Bool :=
  if s1 ≠ s2 then false else d1 == d2

theorem pyInt_mono {a b : ℚ} (h : a ≤ b) : pyInt a ≤ pyInt b := by
  unfold pyInt
  by_cases ha : 0 ≤ a
  · have hb : 0 ≤ b := le_trans ha h
    simp only [if_pos ha, if_pos hb]
    exact Int.floor_le_floor h
  · by_cases hb : 0 ≤ b
    · simp only [if_neg ha, if_pos hb]
      have h1 : (⌈a⌉ : ℤ) ≤ 0 :=
        Int.ceil_le.mpr (by exact_mod_cast le_of_not_le ha)
      have h2 : (0 : ℤ) ≤ ⌊b⌋ := Int.le_floor.mpr (by exact_mod_cast hb)
      omega
    · simp only [if_neg ha, if_neg hb]
      exact Int.ceil_le_ceil h

theorem microErr_nonneg (tf : ℤ) : 0 ≤ microErr tf := by
  unfold microErr; split <;> omega

/-- C1 counterexample. The claim says: mtimes differing by strictly less than
`1/f` seconds compare equal, and a difference of exactly `1/f` or more compares
different.  Serial variant, `f = 1`, mtimes `2` and `1.9`: the difference `0.1`
is strictly below `1/f = 1`, yet the comparer reports the files different.
Parallel variant, `f = 1`, mtimes `0` and `1`: the difference is exactly
`1/f = 1`, yet the comparer reports the files equal. -/
theorem C1_cex :
    (|(2 : ℚ) - 19/10| < 1/1 ∧ compareByDateSer 1 2 (19/10) = false) ∧
    ((1 : ℚ)/1 ≤ |(0 : ℚ) - 1| ∧ compareByDatePar 1 0 1 = true) := by
  have habs1 : |(2 : ℚ) - 19/10| = 1/10 := by
    rw [abs_of_nonneg (by norm_num : (0 : ℚ) ≤ 2 - 19/10)]; norm_num
  have habs2 : |(0 : ℚ) - 1| = 1 := by
    rw [abs_of_nonpos (by norm_num : (0 : ℚ) - 1 ≤ 0)]; norm_num
  refine ⟨⟨by rw [habs1]; norm_num, ?_⟩, ⟨by rw [habs2]; norm_num, ?_⟩⟩
  · have h1 : pyInt ((1 : ℚ) * 2) = 2 := by norm_num [pyInt]
    have h2 : pyInt ((1 : ℚ) * (19/10)) = 1 := by norm_num [pyInt]
    simp only [compareByDateSer, Int.cast_one, h1, h2, microErr]
    norm_num
  · simp only [compareByDatePar, Int.cast_one, habs2]
    norm_num

/-- C1 as amended.  The parallel comparer reports two files equal exactly when
their mtimes differ by at most `2/f` seconds (so a difference strictly above
`2/f` compares different).  The serial comparer uses an asymmetric
integer-truncated rule; in particular a target whose mtime is at least the
source's always compares equal, no matter how large the difference. -/
theorem C1_thm (tf : ℤ) (m1 m2 : ℚ) (hf : 0 < tf) :
    (compareByDatePar tf m1 m2 = true ↔ |m1 - m2| ≤ 2 / (tf : ℚ)) ∧
    (m1 ≤ m2 → compareByDateSer tf m1 m2 = true) := by
  have hfq : (0 : ℚ) < (tf : ℚ) := by exact_mod_cast hf
  constructor
  · unfold compareByDatePar
    rw [decide_eq_true_iff]
    rw [le_div_iff₀ hfq, mul_comm]
  · intro h12
    unfold compareByDateSer
    rw [decide_eq_true_iff]
    have hm : (tf : ℚ) * m1 ≤ (tf : ℚ) * m2 :=
      mul_le_mul_of_nonneg_left h12 (le_of_lt hfq)
    have := pyInt_mono hm
    have := microErr_nonneg tf
    omega

/-- Witness for `C1_thm` at `tf = 1000`, `m1 = 1`, `m2 = 2`. -/
theorem C1_wit :
    (0 < (1000 : ℤ)) ∧
    ((compareByDatePar 1000 1 2 = true ↔ |(1 : ℚ) - 2| ≤ 2 / ((1000 : ℤ) : ℚ)) ∧
     ((1 : ℚ) ≤ 2 → compareByDateSer 1000 1 2 = true)) :=
  ⟨by decide, C1_thm 1000 1 2 (by decide)⟩

/-! ## Path strings

Python paths are modelled as `List Char` (the characters of the path string).
`os.path.basename` / `os.path.dirname` split at the rightmost `/` (posix),
`path.replace("\\", "/")` maps backslashes to slashes, and the Python
substring test `".git/objects/" in path` is a contiguous-sublist search. -/

/-- `path.replace("\\", "/")`. -/
def replBS (p : List Char) : List Char :=
  p.map (fun c => if c = '\\' then '/' else c)

/-- Python `pat in s` (substring test) on character lists. -/
def containsSeg (pat : List Char) : List Char → Bool
  | [] => pat.isPrefixOf []
  | c :: rest => pat.isPrefixOf (c :: rest) || containsSeg pat rest

/-- The object-store segment `".git/objects/"`. -/
def gitSegChars : List Char := ".git/objects/".toList

/-- `os.path.basename`: the part after the rightmost `/`. -/
def baseNameCh (p : List Char) : List Char :=
  (p.reverse.takeWhile (fun c => c ≠ '/')).reverse

/-- `os.path.dirname`: the part before the rightmost `/`. -/
def dirNameCh (p : List Char) : List Char :=
  ((p.reverse.dropWhile (fun c => c ≠ '/')).drop 1).reverse

/-- One character of the class `[0-9a-f]`. -/
def hexChar (c : Char) : Bool :=
  (('0' ≤ c) && (c ≤ '9')) || (('a' ≤ c) && (c ≤ 'f'))

/-- `re.fullmatch(r"[0-9a-f]{38}", s)`: exactly 38 lowercase-hex characters. -/
def hexName38 (s : List Char) : Bool :=
  s.length == 38 && s.all hexChar

/-! ## Filesystem oracle

The filesystem state observed by the per-file operations is abstracted into a
structure of oracle functions: `fsExists`/`isFile` model `os.path.exists` /
`os.path.isfile`, `mtime`/`size`/`digest` model `os.path.getmtime` /
`os.path.getsize` / `FileComparer._calculate_hash` (the digest is `""` when
reading raised `IOError`), `removeOk` models whether `os.chmod` + `os.remove`
succeeds, `dirLen` models `len(os.listdir(...))`, and `copyOk` models whether
`shutil.copy2` succeeds. -/

structure PEnv where
  fsExists : List Char → Bool
  isFile : List Char → Bool
  mtime : List Char → ℚ
  size : List Char → ℕ
  digest : List Char → String
  removeOk : List Char → Bool
  dirLen : List Char → ℕ
  copyOk : List Char → Bool

/-! ## `rm_git_objects_file` (ObjectStoreGuard)

Serial variant (`sync.py`):
1. refuse unless `re.fullmatch(r"[0-9a-f]{38}", basename)`;
2. refuse unless `".git/objects/" in path.replace("\\","/")`;
3. `os.chmod` + `os.remove`; on failure log a warning, and if the file still
   exists and its containing directory holds exactly one entry, `shutil.rmtree`
   that directory; otherwise log an error and return `False`.

Parallel variant (`sync_parallel.py`): step 1 is replaced by
`os.path.isfile(path)` (no filename-pattern check), and after the
directory-level `rmtree` the directory is recreated with `os.makedirs`. -/

/-- Observable outcome of one `rm_git_objects_file` call. -/
structure RmOut where
  ok : Bool
  errorLogged : Bool
  warnLogged : Bool
  removedFile : Bool
  removedDirTree : Bool
  recreatedDir : Bool
  deriving DecidableEq, Repr

/-- A refusal: `False` is returned, an ERROR line is logged, nothing is touched. -/
def rmRefusal : RmOut := ⟨false, true, false, false, false, false⟩

/-- Serial `Sync.rm_git_objects_file`. -/
def rmGitSer (env : PEnv) (p : List Char) : RmOut :=
  if !hexName38 (baseNameCh p) then rmRefusal
  else if !containsSeg gitSegChars (replBS p) then rmRefusal
  else if env.removeOk p then ⟨true, false, false, true, false, false⟩
  else if env.fsExists p && (env.dirLen (dirNameCh p) == 1) then
    ⟨true, false, true, false, true, false⟩
  else ⟨false, true, true, false, false, false⟩

/-- Parallel `ParallelSync.rm_git_objects_file`. -/
def rmGitPar (env : PEnv) (p : List Char) : RmOut :=
  if !env.isFile p then rmRefusal
  else if !containsSeg gitSegChars (replBS p) then rmRefusal
  else if env.removeOk p then ⟨true, false, false, true, false, false⟩
  else if env.fsExists p && (env.dirLen (dirNameCh p) == 1) then
    ⟨true, false, true, false, true, true⟩
  else ⟨false, true, true, false, false, false⟩

/-- An all-permitting oracle: everything exists, is a file, and is removable. -/
def envAllTrue : PEnv :=
  ⟨fun _ => true, fun _ => true, fun _ => 0, fun _ => 0, fun _ => "",
   fun _ => true, fun _ => 1, fun _ => true⟩

/-- C3 counterexample.  The claim says the safe-delete refuses *any* path whose
filename does not match the fixed-length hexadecimal pattern.  The parallel
variant never checks the filename pattern: for the path
`/r/.git/objects/ab/readme` (whose basename `readme` is not 38 hex digits) it
returns `True` and removes the file. -/
theorem C3_cex :
    hexName38 (baseNameCh "/r/.git/objects/ab/readme".toList) = false ∧
    rmGitPar envAllTrue "/r/.git/objects/ab/readme".toList =
      ⟨true, false, false, true, false, false⟩ := by
  constructor <;> decide

/-- C3 as amended.  The serial variant refuses (ERROR log, `False`, nothing
deleted) any path whose filename is not 38 lowercase-hex characters, and any
path not containing the `.git/objects/` segment; the parallel variant refuses
paths that are not regular files, and paths not containing the segment — but
it performs no filename-pattern check. -/
theorem C3_thm (env : PEnv) (p : List Char) :
    (hexName38 (baseNameCh p) = false → rmGitSer env p = rmRefusal) ∧
    (containsSeg gitSegChars (replBS p) = false → rmGitSer env p = rmRefusal) ∧
    (env.isFile p = false → rmGitPar env p = rmRefusal) ∧
    (containsSeg gitSegChars (replBS p) = false → rmGitPar env p = rmRefusal) := by
  refine ⟨fun h => ?_, fun h => ?_, fun h => ?_, fun h => ?_⟩
  · simp [rmGitSer, h]
  · unfold rmGitSer
    by_cases hx : hexName38 (baseNameCh p) <;> simp [hx, h]
  · simp [rmGitPar, h]
  · unfold rmGitPar
    by_cases hx : env.isFile p <;> simp [hx, h]

/-- Witness for `C3_thm`: the path `/tmp/data.txt` is outside the object-store
segment and has a non-hex basename, so both variants refuse it. -/
theorem C3_wit :
    (hexName38 (baseNameCh "/tmp/data.txt".toList) = false ∧
     containsSeg gitSegChars (replBS "/tmp/data.txt".toList) = false ∧
     envAllTrue.isFile "/tmp/data.txt".toList = true) ∧
    rmGitSer envAllTrue "/tmp/data.txt".toList = rmRefusal ∧
    rmGitPar envAllTrue "/tmp/data.txt".toList = rmRefusal :=
  ⟨by decide,
   (C3_thm envAllTrue "/tmp/data.txt".toList).1 (by decide),
   (C3_thm envAllTrue "/tmp/data.txt".toList).2.2.2 (by decide)⟩

/-! ## `compare_files` (mode dispatch)

Serial `Sync.compare_files`: returns `False` if the target is missing, else
dispatches on the mode (`"date"` / `"file"`), else `False`.  Parallel
`ParallelSync.compare_files` additionally: in `date` mode, when *both* paths
contain the `.git/objects/` segment and the date comparison says "different",
the result is re-decided by `compare_by_hash`. -/

/-- Serial `compare_by_date` reading mtimes through the oracle. -/
def compareByDateSerE (env : PEnv) (tf : ℤ) (p1 p2 : List Char) : Bool :=
  compareByDateSer tf (env.mtime p1) (env.mtime p2)

/-- Parallel `compare_by_date` reading mtimes through the oracle. -/
def compareByDateParE (env : PEnv) (tf : ℤ) (p1 p2 : List Char) : Bool :=
  compareByDatePar tf (env.mtime p1) (env.mtime p2)

/-- `compare_by_hash` reading sizes and digests through the oracle. -/
def compareByHashE (env : PEnv) (p1 p2 : List Char) : Bool :=
  compareByHash (env.size p1) (env.digest p1) (env.size p2) (env.digest p2)

/-- Serial `Sync.compare_files`. -/
def compareFilesSer (env : PEnv) (mode : String) (tf : ℤ)
    (src dst : List Char) : Bool :=
  if !env.fsExists dst then false
  else if mode = "date" then compareByDateSerE env tf src dst
  else if mode = "file" then compareByHashE env src dst
  else false

/-- Parallel `ParallelSync.compare_files`. -/
def compareFilesPar (env : PEnv) (mode : String) (tf : ℤ)
    (src dst : List Char) : Bool :=
  if !env.fsExists dst then false
  else if mode = "date" then
    let isGit := containsSeg gitSegChars (replBS src) &&
                 containsSeg gitSegChars (replBS dst)
    let same := compareByDateParE env tf src dst
    if !isGit || same then same else compareByHashE env src dst
  else if mode = "file" then compareByHashE env src dst
  else false

/-- An oracle for the C4 counterexample: every path exists, the source path has
mtime 10 and the target mtime 0, sizes are all 1 and digests all `"h"`. -/
def envC4 : PEnv :=
  ⟨fun _ => true, fun _ => true,
   fun p => if p = "/s/.git/objects/ab/x".toList then 10 else 0,
   fun _ => 1, fun _ => "h", fun _ => true, fun _ => 1, fun _ => true⟩

/-- C4 counterexample.  The claim covers `Sync.compare_files` (serial), but the
serial comparer has no object-store tie-breaker: with both paths inside
`.git/objects/`, the date comparison reporting "different" and the two digests
(and sizes) equal, the serial comparer still reports the files different
instead of consulting the hash. -/
theorem C4_cex :
    containsSeg gitSegChars (replBS "/s/.git/objects/ab/x".toList) = true ∧
    containsSeg gitSegChars (replBS "/t/.git/objects/ab/x".toList) = true ∧
    compareByHashE envC4 "/s/.git/objects/ab/x".toList
      "/t/.git/objects/ab/x".toList = true ∧
    compareByDateSerE envC4 1 "/s/.git/objects/ab/x".toList
      "/t/.git/objects/ab/x".toList = false ∧
    compareFilesSer envC4 "date" 1 "/s/.git/objects/ab/x".toList
      "/t/.git/objects/ab/x".toList = false := by
  refine ⟨by decide, by decide, by decide, ?_, ?_⟩
  · have h1 : envC4.mtime "/s/.git/objects/ab/x".toList = 10 := by decide
    have h2 : envC4.mtime "/t/.git/objects/ab/x".toList = 0 := by decide
    unfold compareByDateSerE
    rw [h1, h2]
    have ha : pyInt ((1 : ℤ) * (10 : ℚ)) = 10 := by norm_num [pyInt]
    have hb : pyInt ((1 : ℤ) * (0 : ℚ)) = 0 := by norm_num [pyInt]
    simp only [compareByDateSer, ha, hb, microErr]
    norm_num
  · unfold compareFilesSer
    have h1 : envC4.mtime "/s/.git/objects/ab/x".toList = 10 := by decide
    have h2 : envC4.mtime "/t/.git/objects/ab/x".toList = 0 := by decide
    simp only [compareByDateSerE, h1, h2]
    have ha : pyInt ((1 : ℤ) * (10 : ℚ)) = 10 := by norm_num [pyInt]
    have hb : pyInt ((1 : ℤ) * (0 : ℚ)) = 0 := by norm_num [pyInt]
    simp only [compareByDateSer, ha, hb, microErr]
    norm_num

/-- C4 as amended.  Only the parallel variant performs the tie-breaker: in
`date` mode, when both paths contain the object-store segment and the date
comparison reports "different", `ParallelSync.compare_files` returns exactly
the result of the hash comparison (so the overwrite proceeds only if the hash
comparison also reports a difference); the serial variant decides by date
alone. -/
theorem C4_thm (env : PEnv) (tf : ℤ) (src dst : List Char)
    (hex : env.fsExists dst = true)
    (hs : containsSeg gitSegChars (replBS src) = true)
    (hd : containsSeg gitSegChars (replBS dst) = true)
    (hdate : compareByDateParE env tf src dst = false) :
    compareFilesPar env "date" tf src dst = compareByHashE env src dst ∧
    compareFilesSer env "date" tf src dst = compareByDateSerE env tf src dst := by
  constructor
  · simp [compareFilesPar, hex, hs, hd, hdate]
  · simp [compareFilesSer, hex]

/-- Witness for `C4_thm` with the `envC4` oracle (both paths under the
object-store segment, date comparison "different", digests equal). -/
theorem C4_wit :
    (envC4.fsExists "/t/.git/objects/ab/x".toList = true ∧
     containsSeg gitSegChars (replBS "/s/.git/objects/ab/x".toList) = true ∧
     containsSeg gitSegChars (replBS "/t/.git/objects/ab/x".toList) = true ∧
     compareByDateParE envC4 1 "/s/.git/objects/ab/x".toList
       "/t/.git/objects/ab/x".toList = false) ∧
    (compareFilesPar envC4 "date" 1 "/s/.git/objects/ab/x".toList
       "/t/.git/objects/ab/x".toList =
       compareByHashE envC4 "/s/.git/objects/ab/x".toList
         "/t/.git/objects/ab/x".toList ∧
     compareFilesSer envC4 "date" 1 "/s/.git/objects/ab/x".toList
       "/t/.git/objects/ab/x".toList =
       compareByDateSerE envC4 1 "/s/.git/objects/ab/x".toList
         "/t/.git/objects/ab/x".toList) := by
  have hdate : compareByDateParE envC4 1 "/s/.git/objects/ab/x".toList
      "/t/.git/objects/ab/x".toList = false := by
    have h1 : envC4.mtime "/s/.git/objects/ab/x".toList = 10 := by decide
    have h2 : envC4.mtime "/t/.git/objects/ab/x".toList = 0 := by decide
    unfold compareByDateParE
    rw [h1, h2]
    have habs : |(10 : ℚ) - 0| = 10 := by
      rw [abs_of_nonneg (by norm_num : (0 : ℚ) ≤ 10 - 0)]; norm_num
    simp only [compareByDatePar, habs, Int.cast_one]
    norm_num
  exact ⟨⟨by decide, by decide, by decide, hdate⟩,
    C4_thm envC4 1 "/s/.git/objects/ab/x".toList "/t/.git/objects/ab/x".toList
      (by decide) (by decide) (by decide) hdate⟩

/-! ## Per-file synchronization (`sync_file` / `sync_file_task`)

Both variants: if the target does not exist, create parent directories and
copy (log `A`, type `added`); else if `compare_files` reports a difference,
first run the object-store guard when the target lies under `.git/objects/`,
then copy over (log `M`, type `modified`); else do nothing (`unchanged`).
Any exception is caught, logged as an error, and yields type `error`.
The parallel task additionally increments the shared counters itself. -/

/-- The log lines produced by one `rm_git_objects_file` call. -/
def rmLogs (r : RmOut) : List String :=
  (if r.warnLogged then ["Warning"] else []) ++
  (if r.errorLogged then ["ERROR"] else [])

/-- Observable outcome of serial `Sync.sync_file` (the serial variant does not
touch the counters itself; `sync_directory` does, from the returned pair). -/
structure FileOutS where
  ok : Bool
  action : String
  logs : List String
  copied : Bool
  deriving DecidableEq, Repr

/-- Serial `Sync.sync_file`. -/
def syncFileSer (env : PEnv) (mode : String) (tf : ℤ)
    (src dst : List Char) : FileOutS :=
  if !env.fsExists dst then
    if env.copyOk dst then ⟨true, "added", ["A"], true⟩
    else ⟨false, "error", ["ERROR"], false⟩
  else if !compareFilesSer env mode tf src dst then
    if containsSeg gitSegChars (replBS dst) then
      let r := rmGitSer env dst
      if !r.ok then ⟨false, "error", rmLogs r, false⟩
      else if env.copyOk dst then ⟨true, "modified", rmLogs r ++ ["M"], true⟩
      else ⟨false, "error", rmLogs r ++ ["ERROR"], false⟩
    else if env.copyOk dst then ⟨true, "modified", ["M"], true⟩
    else ⟨false, "error", ["ERROR"], false⟩
  else ⟨true, "unchanged", [], false⟩

/-- How serial `Sync.sync_directory` turns one `sync_file` result into
(added, modified, failed) increments. -/
def dirCountSer (r : FileOutS) : ℕ × ℕ × ℕ :=
  if r.ok then
    if r.action = "added" then (1, 0, 0)
    else if r.action = "modified" then (0, 1, 0)
    else (0, 0, 0)
  else (0, 0, 1)

/-- Observable outcome of parallel `ParallelSync.sync_file_task`, including the
counter increments the task itself performs. -/
structure FileOutP where
  ok : Bool
  action : String
  logs : List String
  copied : Bool
  cAdd : ℕ
  cMod : ℕ
  cFail : ℕ
  deriving DecidableEq, Repr

/-- Parallel `ParallelSync.sync_file_task`. -/
def syncFileTaskPar (env : PEnv) (mode : String) (tf : ℤ)
    (src dst : List Char) : FileOutP :=
  if !env.fsExists dst then
    if env.copyOk dst then ⟨true, "added", ["A"], true, 1, 0, 0⟩
    else ⟨false, "error", ["ERROR"], false, 0, 0, 1⟩
  else if !compareFilesPar env mode tf src dst then
    if containsSeg gitSegChars (replBS dst) then
      let r := rmGitPar env dst
      if !r.ok then ⟨false, "error", rmLogs r, false, 0, 0, 1⟩
      else if env.copyOk dst then ⟨true, "modified", rmLogs r ++ ["M"], true, 0, 1, 0⟩
      else ⟨false, "error", rmLogs r ++ ["ERROR"], false, 0, 0, 1⟩
    else if env.copyOk dst then ⟨true, "modified", ["M"], true, 0, 1, 0⟩
    else ⟨false, "error", ["ERROR"], false, 0, 0, 1⟩
  else ⟨true, "unchanged", [], false, 0, 0, 0⟩

/-- C5.  When the target exists and the active comparison reports no
difference, the per-file operation does nothing: it copies nothing, logs
nothing, and (serial) contributes `(0,0,0)` to the `sync_directory` counters /
(parallel) increments no counter. -/
theorem C5_thm (env : PEnv) (mode : String) (tf : ℤ) (src dst : List Char)
    (hex : env.fsExists dst = true) :
    (compareFilesSer env mode tf src dst = true →
      syncFileSer env mode tf src dst = ⟨true, "unchanged", [], false⟩ ∧
      dirCountSer (syncFileSer env mode tf src dst) = (0, 0, 0)) ∧
    (compareFilesPar env mode tf src dst = true →
      syncFileTaskPar env mode tf src dst =
        ⟨true, "unchanged", [], false, 0, 0, 0⟩) := by
  constructor
  · intro hc
    have h1 : syncFileSer env mode tf src dst = ⟨true, "unchanged", [], false⟩ := by
      simp [syncFileSer, hex, hc]
    exact ⟨h1, by rw [h1]; decide⟩
  · intro hc
    simp [syncFileTaskPar, hex, hc]

/-- Witness for `C5_thm`: with the all-true oracle (sizes 0, digests `""`),
`file` mode reports no difference, and both per-file operations do nothing. -/
theorem C5_wit :
    (envAllTrue.fsExists "/t/a".toList = true ∧
     compareFilesSer envAllTrue "file" 1 "/s/a".toList "/t/a".toList = true ∧
     compareFilesPar envAllTrue "file" 1 "/s/a".toList "/t/a".toList = true) ∧
    (syncFileSer envAllTrue "file" 1 "/s/a".toList "/t/a".toList =
       ⟨true, "unchanged", [], false⟩ ∧
     dirCountSer (syncFileSer envAllTrue "file" 1 "/s/a".toList "/t/a".toList) =
       (0, 0, 0)) ∧
    syncFileTaskPar envAllTrue "file" 1 "/s/a".toList "/t/a".toList =
      ⟨true, "unchanged", [], false, 0, 0, 0⟩ :=
  ⟨by decide,
   (C5_thm envAllTrue "file" 1 "/s/a".toList "/t/a".toList (by decide)).1 (by decide),
   (C5_thm envAllTrue "file" 1 "/s/a".toList "/t/a".toList (by decide)).2 (by decide)⟩

/-- C9.  If two files have equal sizes and the digest computation failed for
both (`_calculate_hash` returned `""`), `compare_by_hash` compares `"" == ""`
and reports the files identical; consequently the per-file sync treats the
pair as `unchanged` — no copy, no log, no counter, no failure. -/
theorem C9_thm (env : PEnv) (tf : ℤ) (src dst : List Char)
    (hex : env.fsExists dst = true)
    (hsz : env.size src = env.size dst)
    (hd1 : env.digest src = "")
    (hd2 : env.digest dst = "") :
    compareByHashE env src dst = true ∧
    syncFileSer env "file" tf src dst = ⟨true, "unchanged", [], false⟩ ∧
    syncFileTaskPar env "file" tf src dst =
      ⟨true, "unchanged", [], false, 0, 0, 0⟩ := by
  have hh : compareByHashE env src dst = true := by
    simp [compareByHashE, compareByHash, hsz, hd1, hd2]
  refine ⟨hh, ?_, ?_⟩
  · have hc : compareFilesSer env "file" tf src dst = true := by
      simp [compareFilesSer, hex, hh]
    simp [syncFileSer, hex, hc]
  · have hc : compareFilesPar env "file" tf src dst = true := by
      simp [compareFilesPar, hex, hh]
    simp [syncFileTaskPar, hex, hc]

/-- Witness for `C9_thm` with the all-true oracle (all digests are `""`). -/
theorem C9_wit :
    (envAllTrue.fsExists "/t/b".toList = true ∧
     envAllTrue.size "/s/b".toList = envAllTrue.size "/t/b".toList ∧
     envAllTrue.digest "/s/b".toList = "" ∧
     envAllTrue.digest "/t/b".toList = "") ∧
    (compareByHashE envAllTrue "/s/b".toList "/t/b".toList = true ∧
     syncFileSer envAllTrue "file" 1 "/s/b".toList "/t/b".toList =
       ⟨true, "unchanged", [], false⟩ ∧
     syncFileTaskPar envAllTrue "file" 1 "/s/b".toList "/t/b".toList =
       ⟨true, "unchanged", [], false, 0, 0, 0⟩) :=
  ⟨⟨by decide, by decide, by decide, by decide⟩,
   C9_thm envAllTrue 1 "/s/b".toList "/t/b".toList
     (by decide) (by decide) (by decide) (by decide)⟩

/-! ## Redundancy classification (`_is_redundant` / `is_redundant`)

Paths below the two roots are modelled by their relative component lists
(`rel : List String`, `os.path.dirname` = `List.dropLast`, the root itself is
`[]`).  The filesystem facts the classifier consults are abstracted into three
boolean functions on relative paths: existence below the source root,
existence below the target root, and the (cached, shared) `is_ignore` verdict.

Python `is_redundant`:

    if not os.path.exists(sync_path): return False
    ignore = self.is_ignore(sync_path, self.sync_root_path)
    redundant = self._is_redundant(source_path, sync_path)
    while (not self.delete and ignore) and not redundant:
        source_path = os.path.dirname(source_path)
        sync_path = os.path.dirname(sync_path)
        if sync_path == self.sync_root_path: break
        redundant = self._is_redundant(source_path, sync_path)
    return redundant
-/

structure SyncFS where
  existsSrc : List String → Bool
  existsDst : List String → Bool
  ign : List String → Bool

/-- `_is_redundant`: no source counterpart and not ignored, or the delete flag
is on and the path is ignored. -/
def isRedundantBase (fs : SyncFS) (delete : Bool) (rel : List String) : Bool :=
  (!fs.existsSrc rel && !fs.ign rel) || (delete && fs.ign rel)

/-- The `while` loop of `is_redundant`: `ignore0` is the (never re-computed)
ignore verdict of the original entry, `red` the current redundancy value.
Each iteration replaces the path by its `dirname`, which strictly shortens
the component list, so the loop performs at most `rel.length` iterations;
`fuel` (instantiated with `rel.length` by `isRedundant`) makes the recursion
structural without changing the computed value. -/
def redundantLoop (fs : SyncFS) (delete ignore0 : Bool) :
    (fuel : ℕ) → (rel : List String) → (red : Bool) → Bool
  | 0, _, red => red
  | fuel + 1, rel, red =>
    if (!delete && ignore0) && !red then
      if rel.dropLast.isEmpty then red
      else redundantLoop fs delete ignore0 fuel rel.dropLast
        (isRedundantBase fs delete rel.dropLast)
    else red

/-- `Sync.is_redundant` / `ParallelSync.is_redundant`. -/
def isRedundant (fs : SyncFS) (delete : Bool) (rel : List String) : Bool :=
  if !fs.existsDst rel then false
  else redundantLoop fs delete (fs.ign rel) rel.length rel
    (isRedundantBase fs delete rel)

theorem redundantLoop_step_false (fs : SyncFS) (fuel : ℕ) (rel : List String) :
    redundantLoop fs false true (fuel + 1) rel false =
      if rel.dropLast.isEmpty then false
      else redundantLoop fs false true fuel rel.dropLast
        (isRedundantBase fs false rel.dropLast) := by
  rw [redundantLoop]; simp

theorem redundantLoop_true (fs : SyncFS) (fuel : ℕ) (rel : List String) :
    redundantLoop fs false true fuel rel true = true := by
  cases fuel with
  | zero => rfl
  | succ n => rw [redundantLoop]; simp

/-- With the delete flag disabled and the original entry ignored, the ancestor
walk returns `true` exactly when some proper ancestor strictly below the root
(`rel.take i`, `1 ≤ i < rel.length`) satisfies `_is_redundant`. -/
theorem redundantLoop_char (fs : SyncFS) :
    ∀ (n : ℕ) (rel : List String), rel.length ≤ n →
      (redundantLoop fs false true n rel false = true ↔
        ∃ i, i < rel.length ∧ 1 ≤ i ∧
          isRedundantBase fs false (rel.take i) = true) := by
  intro n
  induction n with
  | zero =>
    intro rel hlen
    constructor
    · intro h; exact (Bool.false_ne_true h).elim
    · rintro ⟨i, h1, h2, _⟩; omega
  | succ n IH =>
  intro rel hlen
  rw [redundantLoop_step_false]
  by_cases hemp : rel.dropLast.isEmpty
  · rw [if_pos hemp]
    have h0 : rel.dropLast = [] := List.isEmpty_iff.mp hemp
    have hle : rel.length ≤ 1 := by
      have h1 := List.length_dropLast rel
      rw [h0] at h1
      simp only [List.length_nil] at h1
      omega
    constructor
    · intro h; exact (Bool.false_ne_true h).elim
    · rintro ⟨i, h1, h2, _⟩; omega
  · rw [if_neg hemp]
    have h0 : rel.dropLast ≠ [] := fun h => hemp (by simp [h])
    have hlen2 : rel.dropLast.length = rel.length - 1 := List.length_dropLast rel
    have hge2 : 2 ≤ rel.length := by
      have : 0 < rel.dropLast.length := List.length_pos.mpr h0
      omega
    have htake : rel.dropLast = rel.take (rel.length - 1) := List.dropLast_eq_take rel
    by_cases hb : isRedundantBase fs false rel.dropLast = true
    · rw [hb, redundantLoop_true]
      constructor
      · intro _
        exact ⟨rel.length - 1, by omega, by omega, by rw [← htake]; exact hb⟩
      · intro _; rfl
    · have hb' : isRedundantBase fs false rel.dropLast = false := by
        revert hb; cases isRedundantBase fs false rel.dropLast <;> simp
      rw [hb']
      rw [IH rel.dropLast (by omega)]
      constructor
      · rintro ⟨i, hi1, hi2, hi3⟩
        refine ⟨i, by omega, hi2, ?_⟩
        rw [htake, List.take_take, min_eq_left (by omega : i ≤ rel.length - 1)] at hi3
        exact hi3
      · rintro ⟨i, hi1, hi2, hi3⟩
        by_cases hcase : i = rel.length - 1
        · exfalso
          rw [hcase, ← htake] at hi3
          rw [hi3] at hb'
          exact Bool.noConfusion hb'
        · refine ⟨i, by omega, hi2, ?_⟩
          rw [htake, List.take_take, min_eq_left (by omega : i ≤ rel.length - 1)]
          exact hi3

/-- C2.  With the delete flag disabled, an existing, ignored target entry is
classified redundant if and only if some ancestor strictly below the target
root (`rel.take i`, `1 ≤ i < rel.length`) is itself redundant, i.e. absent
from source and not ignored; if no such ancestor exists the entry is
preserved. -/
theorem C2_thm (fs : SyncFS) (rel : List String)
    (hdst : fs.existsDst rel = true) (hig : fs.ign rel = true) :
    (isRedundant fs false rel = true ↔
      ∃ i, i < rel.length ∧ 1 ≤ i ∧
        (fs.existsSrc (rel.take i) = false ∧ fs.ign (rel.take i) = false)) := by
  unfold isRedundant
  rw [hdst]
  simp only [Bool.not_true, Bool.false_eq_true, if_false]
  rw [hig]
  have hbase0 : isRedundantBase fs false rel = false := by
    simp [isRedundantBase, hig]
  rw [hbase0]
  rw [redundantLoop_char fs rel.length rel le_rfl]
  constructor
  · rintro ⟨i, h1, h2, h3⟩
    refine ⟨i, h1, h2, ?_⟩
    simpa [isRedundantBase] using h3
  · rintro ⟨i, h1, h2, h3, h4⟩
    exact ⟨i, h1, h2, by simp [isRedundantBase, h3, h4]⟩

/-- The filesystem of the spec's ignore-inheritance example: the source holds
`keep/real.txt`, the target additionally holds the ignored directory
`keep/ignored_dir` with `x.txt` inside. -/
def fsInherit : SyncFS :=
  ⟨fun p => (p == ["keep"]) || (p == ["keep", "real.txt"]),
   fun _ => true,
   fun p => (p == ["keep", "ignored_dir"]) || (p == ["keep", "ignored_dir", "x.txt"])⟩

/-- Witness for `C2_thm` on the spec's example entry `keep/ignored_dir/x.txt`. -/
theorem C2_wit :
    (fsInherit.existsDst ["keep", "ignored_dir", "x.txt"] = true ∧
     fsInherit.ign ["keep", "ignored_dir", "x.txt"] = true) ∧
    (isRedundant fsInherit false ["keep", "ignored_dir", "x.txt"] = true ↔
      ∃ i, i < (["keep", "ignored_dir", "x.txt"] : List String).length ∧ 1 ≤ i ∧
        (fsInherit.existsSrc ((["keep", "ignored_dir", "x.txt"] : List String).take i) = false ∧
         fsInherit.ign ((["keep", "ignored_dir", "x.txt"] : List String).take i) = false)) :=
  ⟨⟨by decide, by decide⟩,
   C2_thm fsInherit ["keep", "ignored_dir", "x.txt"] (by decide) (by decide)⟩

/-- C8.  A queried target path that no longer exists is never classified
redundant, regardless of the delete flag, the ignore rules, or the source. -/
theorem C8_thm (fs : SyncFS) (delete : Bool) (rel : List String)
    (h : fs.existsDst rel = false) :
    isRedundant fs delete rel = false := by
  simp [isRedundant, h]

/-- A filesystem in which the queried target path is already gone. -/
def fsGone : SyncFS := ⟨fun _ => false, fun _ => false, fun _ => true⟩

/-- Witness for `C8_thm` on an already-removed entry, with the delete flag on. -/
theorem C8_wit :
    fsGone.existsDst ["gone.txt"] = false ∧
    isRedundant fsGone true ["gone.txt"] = false :=
  ⟨by decide, C8_thm fsGone true ["gone.txt"] (by decide)⟩

/-! ## Loading ignore rules (`Source.get_ignore_rules`, identical in both
variants)

For each line of the ignore file (lines modelled as `List Char`):

    if line.strip() and not line.strip().startswith("#"):
        if line.strip().startswith("**/"):
            rules.append(line.strip()[1:]); rules.append(line.strip()[3:])
            if line.strip().endswith("/"):
                rules.append(line.strip()[1:] + "*")
                rules.append(line.strip()[3:] + "*")
        elif line.strip().endswith("/"):
            rules.append(line.strip()); rules.append(line.strip() + "*")
        else:
            rules.append(line.strip())
-/

/-- Python `line.strip()`: remove leading and trailing whitespace. -/
def pyStrip (s : List Char) : List Char :=
  ((s.dropWhile Char.isWhitespace).reverse.dropWhile Char.isWhitespace).reverse

/-- Python `s.endswith("/")` on a character list. -/
def endsWithSlash (s : List Char) : Bool := s.getLast? == some '/'

/-- The rules one ignore-file line contributes (Python calls `line.strip()`
afresh at every use, hence the repeated `pyStrip l`). -/
def expandLine (l : List Char) : List (List Char) :=
  if (pyStrip l).isEmpty then []
  else if ['#'].isPrefixOf (pyStrip l) then []
  else if ['*', '*', '/'].isPrefixOf (pyStrip l) then
    if endsWithSlash (pyStrip l) then
      [(pyStrip l).drop 1, (pyStrip l).drop 3,
       (pyStrip l).drop 1 ++ ['*'], (pyStrip l).drop 3 ++ ['*']]
    else [(pyStrip l).drop 1, (pyStrip l).drop 3]
  else if endsWithSlash (pyStrip l) then [pyStrip l, pyStrip l ++ ['*']]
  else [pyStrip l]

/-- `Source.get_ignore_rules` over the lines of the ignore file. -/
def getIgnoreRules : List (List Char) → List (List Char)
  | [] => []
  | l :: ls => expandLine l ++ getIgnoreRules ls

/-- C7 counterexample.  The claim says a `**/`-prefixed line is expanded into
two rules, "one with the prefix and one without it".  For the line `**/foo`
the code instead produces `*/foo` (the slice `[1:]`, a single-star prefix) and
`foo`: no produced rule carries the `**/` prefix. -/
theorem C7_cex :
    getIgnoreRules ["**/foo".toList] = ["*/foo".toList, "foo".toList] ∧
    (getIgnoreRules ["**/foo".toList]).all
      (fun r => !(['*', '*', '/'].isPrefixOf r)) = true := by
  constructor <;> decide

/-- C7 as amended.  A non-blank, non-comment line starting with `**/` yields
the slice from index 1 (the leading `**` collapsed to a single `*`, equivalent
under shell-glob semantics in which `*` also matches `/`) and the slice from
index 3 (the prefix removed); when the line also ends in `/` both slices are
additionally duplicated with a trailing `*`.  A line ending in `/` without the
`**/` prefix is kept and duplicated with a trailing `*`. -/
theorem C7_thm :
    (∀ t : List Char, pyStrip ('*' :: '*' :: '/' :: t) = '*' :: '*' :: '/' :: t →
      getIgnoreRules [('*' :: '*' :: '/' :: t)] =
        if endsWithSlash ('*' :: '*' :: '/' :: t) then
          ['*' :: '/' :: t, t, ('*' :: '/' :: t) ++ ['*'], t ++ ['*']]
        else ['*' :: '/' :: t, t]) ∧
    (∀ l : List Char, pyStrip l = l → l ≠ [] →
      (['#'].isPrefixOf l) = false → (['*', '*', '/'].isPrefixOf l) = false →
      endsWithSlash l = true →
      getIgnoreRules [l] = [l, l ++ ['*']]) := by
  constructor
  · intro t hstrip
    show expandLine ('*' :: '*' :: '/' :: t) ++ [] = _
    rw [List.append_nil]
    unfold expandLine
    rw [hstrip]
    have h1 : ('*' :: '*' :: '/' :: t).isEmpty = false := rfl
    have h2 : ['#'].isPrefixOf ('*' :: '*' :: '/' :: t) = false := by
      simp [List.isPrefixOf]
    have h3 : ['*', '*', '/'].isPrefixOf ('*' :: '*' :: '/' :: t) = true := by
      simp [List.isPrefixOf]
    rw [h1, h2, h3]
    simp
  · intro l hstrip hne hhash hstar hslash
    show expandLine l ++ [] = _
    rw [List.append_nil]
    unfold expandLine
    rw [hstrip]
    have h1 : l.isEmpty = false := by
      cases l with
      | nil => exact absurd rfl hne
      | cons c cs => rfl
    rw [h1, hhash, hstar, hslash]
    simp

/-- Witness for `C7_thm` at the lines `**/foo/` and `build/`. -/
theorem C7_wit :
    (pyStrip ('*' :: '*' :: '/' :: "foo/".toList) =
       '*' :: '*' :: '/' :: "foo/".toList ∧
     pyStrip "build/".toList = "build/".toList ∧
     "build/".toList ≠ [] ∧
     (['#'].isPrefixOf "build/".toList) = false ∧
     (['*', '*', '/'].isPrefixOf "build/".toList) = false ∧
     endsWithSlash "build/".toList = true) ∧
    getIgnoreRules [('*' :: '*' :: '/' :: "foo/".toList)] =
      (if endsWithSlash ('*' :: '*' :: '/' :: "foo/".toList) then
        ['*' :: '/' :: "foo/".toList, "foo/".toList,
         ('*' :: '/' :: "foo/".toList) ++ ['*'], "foo/".toList ++ ['*']]
      else ['*' :: '/' :: "foo/".toList, "foo/".toList]) ∧
    getIgnoreRules ["build/".toList] = ["build/".toList, "build/".toList ++ ['*']] :=
  ⟨⟨by decide, by decide, by decide, by decide, by decide, by decide⟩,
   C7_thm.1 "foo/".toList (by decide),
   C7_thm.2 "build/".toList (by decide) (by decide) (by decide) (by decide) (by decide)⟩

/-! ## `Source.is_ignore` (both variants)

    assert os.path.exists(root_path), ...
    assert path.startswith(root_path), ...
    if os.path.samefile(path, root_path) if os.path.exists(path) else False:
        return False
    relative_path = os.path.relpath(path, root_path)
    return any(is_satisfy_rule(relative_path, rule, root_path) for rule in rules)

A failed `assert` raises `AssertionError` instead of returning a boolean,
modelled as `Except.error`.  The rule matcher `is_satisfy_rule` (shell-glob
matching) is abstracted into the `ruleMatch` oracle; `os.path.samefile` into the
`samefile` oracle. -/

structure IgnEnv where
  fsExists : List Char → Bool
  samefile : List Char → List Char → Bool
  ruleMatch : List Char → List Char → Bool
  rules : List (List Char)

/-- `os.path.relpath(path, root)` when `root` is a string prefix of `path`:
strip the root and any separators that follow it. -/
def relPathCh (path root : List Char) : List Char :=
  (path.drop root.length).dropWhile (fun c => c = '/')

/-- `Source.is_ignore`; `Except.error` models a raised `AssertionError`. -/
def isIgnoreE (env : IgnEnv) (path root : List Char) : Except String Bool :=
  if !env.fsExists root then Except.error "root path does not exist"
  else if !root.isPrefixOf path then Except.error "root is not a prefix of path"
  else if (if env.fsExists path then env.samefile path root else false) then
    Except.ok false
  else Except.ok (env.rules.any (fun r => env.ruleMatch (relPathCh path root) r))

/-- C10.  `is_ignore` demands that the root exists and that the queried path
starts with the root: if either precondition fails it raises `AssertionError`
(an `Except.error`) instead of returning a boolean, and whenever both hold it
does return a boolean verdict. -/
theorem C10_thm (env : IgnEnv) (path root : List Char) :
    (env.fsExists root = false →
      isIgnoreE env path root = Except.error "root path does not exist") ∧
    (env.fsExists root = true → root.isPrefixOf path = false →
      isIgnoreE env path root = Except.error "root is not a prefix of path") ∧
    (env.fsExists root = true → root.isPrefixOf path = true →
      ∃ b, isIgnoreE env path root = Except.ok b) := by
  refine ⟨fun h => ?_, fun h1 h2 => ?_, fun h1 h2 => ?_⟩
  · simp [isIgnoreE, h]
  · simp [isIgnoreE, h1, h2]
  · unfold isIgnoreE
    rw [h1, h2]
    by_cases hs : (if env.fsExists path then env.samefile path root else false) = true
    · exact ⟨false, by simp [hs]⟩
    · exact ⟨env.rules.any (fun r => env.ruleMatch (relPathCh path root) r),
        by simp [hs]⟩

/-- An oracle for the `is_ignore` witness: only `/src` exists. -/
def envIgn : IgnEnv :=
  ⟨fun p => p == "/src".toList, fun _ _ => false, fun _ _ => false, []⟩

/-- Witness for `C10_thm`: a missing root raises, a path outside the root
raises, and a path under the existing root gets a boolean verdict. -/
theorem C10_wit :
    (envIgn.fsExists "/gone".toList = false ∧
     envIgn.fsExists "/src".toList = true ∧
     ("/src".toList).isPrefixOf "/other/a.txt".toList = false ∧
     ("/src".toList).isPrefixOf "/src/a.txt".toList = true) ∧
    isIgnoreE envIgn "/x".toList "/gone".toList =
      Except.error "root path does not exist" ∧
    isIgnoreE envIgn "/other/a.txt".toList "/src".toList =
      Except.error "root is not a prefix of path" ∧
    ∃ b, isIgnoreE envIgn "/src/a.txt".toList "/src".toList = Except.ok b :=
  ⟨⟨by decide, by decide, by decide, by decide⟩,
   (C10_thm envIgn "/x".toList "/gone".toList).1 (by decide),
   (C10_thm envIgn "/other/a.txt".toList "/src".toList).2.1 (by decide) (by decide),
   (C10_thm envIgn "/src/a.txt".toList "/src".toList).2.2 (by decide) (by decide)⟩

/-! ## Tree model for one full pass (serial `sync_directory` + `remove_extra_files`)

For the idempotence claim the two directory trees are modelled explicitly.
An entry is a regular file (mtime, size, digest — the digest being what
`_calculate_hash` returns, `""` for unreadable entries and directories) or a
directory (a directory also has an `os.path.getmtime` / `os.path.getsize`
reading, used when `compare_files` is pointed at it); a directory's listing is
an ordered association list of named entries (`os.listdir` order).
External I/O failures (permissions, transient errors) are not modelled;
failures in the model arise from the structural error paths of the code
itself (filename-pattern refusals, non-empty directories, copying onto or
into conflicting entries). -/

mutual
inductive Entry : Type where
  | file (mt : ℚ) (sz : ℕ) (dg : String) : Entry
  | dir (mt : ℚ) (sz : ℕ) (ch : Dirt) : Entry
  deriving DecidableEq, Repr
inductive Dirt : Type where
  | nil : Dirt
  | cons (name : String) (e : Entry) (rest : Dirt) : Dirt
  deriving DecidableEq, Repr
end

/-- First entry named `n` (`os.listdir` lookup). -/
def lookupD : Dirt → String → Option Entry
  | Dirt.nil, _ => none
  | Dirt.cons k v rest, n => if k = n then some v else lookupD rest n

/-- Write entry `n` (overwrite the first occurrence, else append). -/
def insertD : Dirt → String → Entry → Dirt
  | Dirt.nil, n, e => Dirt.cons n e Dirt.nil
  | Dirt.cons k v rest, n, e =>
    if k = n then Dirt.cons k e rest else Dirt.cons k v (insertD rest n e)

/-- Delete the first entry named `n`. -/
def removeD : Dirt → String → Dirt
  | Dirt.nil, _ => Dirt.nil
  | Dirt.cons k v rest, n => if k = n then rest else Dirt.cons k v (removeD rest n)

/-- The listing's names. -/
def keysD : Dirt → List String
  | Dirt.nil => []
  | Dirt.cons k _ rest => k :: keysD rest

/-- `len(os.listdir(...))`. -/
def lengthD : Dirt → ℕ
  | Dirt.nil => 0
  | Dirt.cons _ _ rest => lengthD rest + 1

/-- `os.path.getmtime` on an entry. -/
def Entry.mtv : Entry → ℚ
  | Entry.file mt _ _ => mt
  | Entry.dir mt _ _ => mt

/-- `os.path.getsize` on an entry. -/
def Entry.szv : Entry → ℕ
  | Entry.file _ sz _ => sz
  | Entry.dir _ sz _ => sz

/-- `_calculate_hash` on an entry: opening a directory raises
`IsADirectoryError` (an `IOError`), so a directory digests to `""`. -/
def Entry.dgv : Entry → String
  | Entry.file _ _ dg => dg
  | Entry.dir _ _ _ => ""

/-- Entry at a relative path (`none` for the root itself). -/
def lookupPath : Dirt → List String → Option Entry
  | _, [] => none
  | d, [n] => lookupD d n
  | d, n :: n2 :: rest =>
    match lookupD d n with
    | some (Entry.dir _ _ ch) => lookupPath ch (n2 :: rest)
    | _ => none

/-- `os.path.exists` below the source root. -/
def existsSrcB (s : Dirt) (rel : List String) : Bool :=
  rel.isEmpty || (lookupPath s rel).isSome

/-- Session configuration consulted by one serial pass.  `ign` is the cached
`is_ignore` verdict as a fixed function of the relative component path (the
cache is keyed by the relative path and shared between the source and target
walks, and the ignore file does not change during the runs considered). -/
structure C6Cfg where
  mode : String
  tf : ℤ
  ign : List String → Bool
  delete : Bool

/-- `compare_files` dispatch on a source file's metadata versus an existing
target entry (`date` / `file`, anything else compares "different"). -/
def compareFilesT (mode : String) (tf : ℤ) (mt : ℚ) (sz : ℕ) (dg : String)
    (e : Entry) : Bool :=
  if mode = "date" then compareByDateSer tf mt e.mtv
  else if mode = "file" then compareByHash sz dg e.szv e.dgv
  else false

/-- The `".git/objects/" in path` test on the joined relative path (the two
root paths themselves are assumed not to contain the segment). -/
def gitSegB (rel : List String) : Bool :=
  containsSeg gitSegChars (String.intercalate "/" rel).toList

/-- Failures produced by syncing a source listing whose target "directory" is
actually a regular file: every non-ignored child fails (`os.makedirs` /
`shutil.copy2` below a file raise `NotADirectoryError`), and nothing deeper is
visited. -/
def countConflictFails (cfg : C6Cfg) (rel : List String) : Dirt → ℕ
  | Dirt.nil => 0
  | Dirt.cons name _ rest =>
    (if cfg.ign (rel ++ [name]) then 0 else 1) + countConflictFails cfg rel rest

/-- Serial `Sync.sync_file` on the tree model.  `relName` is the entry's
relative path, `tcEff` the live listing of the target parent directory.
Returns the new parent listing, a flag meaning "the parent directory was
removed by the object-store guard's directory-level fallback and not
recreated", and the (added, modified, failed) contribution.  The guard's
fallback fires when `os.remove` is pointed at a directory entry: `os.remove`
raises, and if the parent holds exactly one entry the parent is removed by
`shutil.rmtree`, after which the follow-up `shutil.copy2` fails (no parent);
`shutil.copy2` onto a directory copies *into* it under the source basename. -/
def syncFileT (cfg : C6Cfg) (relName : List String) (name : String)
    (mt : ℚ) (sz : ℕ) (dg : String) (tcEff : Dirt) :
    Dirt × Bool × ℕ × ℕ × ℕ :=
  match lookupD tcEff name with
  | none => (insertD tcEff name (Entry.file mt sz dg), false, 1, 0, 0)
  | some e =>
    if compareFilesT cfg.mode cfg.tf mt sz dg e then (tcEff, false, 0, 0, 0)
    else if gitSegB relName then
      if !hexName38 name.toList then (tcEff, false, 0, 0, 1)
      else
        match e with
        | Entry.file _ _ _ =>
          (insertD tcEff name (Entry.file mt sz dg), false, 0, 1, 0)
        | Entry.dir _ _ _ =>
          if lengthD tcEff == 1 then (Dirt.nil, true, 0, 0, 1)
          else (tcEff, false, 0, 0, 1)
    else
      match e with
      | Entry.file _ _ _ =>
        (insertD tcEff name (Entry.file mt sz dg), false, 0, 1, 0)
      | Entry.dir dm ds dch =>
        match lookupD dch name with
        | some (Entry.dir _ _ _) => (tcEff, false, 0, 0, 1)
        | _ =>
          (insertD tcEff name
            (Entry.dir dm ds (insertD dch name (Entry.file mt sz dg))),
           false, 0, 1, 0)

/-- Serial `Sync.sync_directory`, as the loop over one source listing.
`tc` is the live listing of the corresponding target directory and `wiped`
records whether that target directory is currently missing (removed by the
guard fallback, to be recreated by the next `os.makedirs`).  Returns the new
target listing, the final `wiped` state, and (added, modified, failed). -/
def syncList (cfg : C6Cfg) (rel : List String) :
    Dirt → Dirt → Bool → (Dirt × Bool × ℕ × ℕ × ℕ)
  | Dirt.nil, tc, wiped => (tc, wiped, 0, 0, 0)
  | Dirt.cons name (Entry.file mt sz dg) rest, tc, wiped =>
    if cfg.ign (rel ++ [name]) then
      syncList cfg rel rest tc wiped
    else
      let tcEff := if wiped then Dirt.nil else tc
      let (tc1, w1, a1, m1, f1) := syncFileT cfg (rel ++ [name]) name mt sz dg tcEff
      let (tc2, w2, a2, m2, f2) := syncList cfg rel rest tc1 w1
      (tc2, w2, a1 + a2, m1 + m2, f1 + f2)
  | Dirt.cons name (Entry.dir _ _ sch) rest, tc, wiped =>
    if cfg.ign (rel ++ [name]) then
      syncList cfg rel rest tc wiped
    else
      let tcEff := if wiped then Dirt.nil else tc
      match lookupD tcEff name with
      | some (Entry.file _ _ _) =>
        let fl := countConflictFails cfg (rel ++ [name]) sch
        let (tc2, w2, a2, m2, f2) := syncList cfg rel rest tcEff false
        (tc2, w2, a2, m2, fl + f2)
      | some (Entry.dir dm ds dch) =>
        let (ch2, cw, a1, m1, f1) := syncList cfg (rel ++ [name]) sch dch false
        let tc1 := if cw then removeD tcEff name
                   else insertD tcEff name (Entry.dir dm ds ch2)
        let (tc2, w2, a2, m2, f2) := syncList cfg rel rest tc1 false
        (tc2, w2, a1 + a2, m1 + m2, f1 + f2)
      | none =>
        let (ch2, cw, a1, m1, f1) := syncList cfg (rel ++ [name]) sch Dirt.nil false
        let tc1 := if cw then tcEff
                   else insertD tcEff name (Entry.dir 0 0 ch2)
        let (tc2, w2, a2, m2, f2) := syncList cfg rel rest tc1 false
        (tc2, w2, a1 + a2, m1 + m2, f1 + f2)

/-- One serial `sync_directory(source_root, sync_root)` call (the target root
exists; the logger created it). -/
def syncRootT (cfg : C6Cfg) (s t : Dirt) : Dirt × ℕ × ℕ × ℕ :=
  match syncList cfg [] s t false with
  | (tc, w, a, m, f) => (if w then Dirt.nil else tc, a, m, f)

/-- The engine's own log file, exempted (at the top level) from deletion. -/
def logName : String := "synclog.txt"

/-- `is_redundant` over the tree model: source existence from the source tree,
target existence `true` (the walked entry exists), ignore verdicts from the
shared cache function. -/
def Rfun (cfg : C6Cfg) (s : Dirt) (rel : List String) : Bool :=
  isRedundant ⟨existsSrcB s, fun _ => true, cfg.ign⟩ cfg.delete rel

/-- Serial `Sync.remove_extra_files` on one target listing (`os.walk` with
`topdown=False`: each subtree is fully processed before its parent decides;
files of a listing are handled before its subdirectories are considered for
`os.rmdir`, which only removes empty directories).  Redundant files under
`.git/objects/` go through the guard, whose filename-pattern refusal turns
into a logged failure. -/
def reapList (cfg : C6Cfg) (s : Dirt) (rel : List String) :
    Dirt → Dirt × ℕ × ℕ × ℕ
  | Dirt.nil => (Dirt.nil, 0, 0, 0)
  | Dirt.cons name (Entry.file mt sz dg) rest =>
    let (rest2, df, dd, fl) := reapList cfg s rel rest
    if rel ++ [name] = [logName] then
      (Dirt.cons name (Entry.file mt sz dg) rest2, df, dd, fl)
    else if Rfun cfg s (rel ++ [name]) then
      if gitSegB (rel ++ [name]) then
        if hexName38 name.toList then (rest2, df + 1, dd, fl)
        else (Dirt.cons name (Entry.file mt sz dg) rest2, df, dd, fl + 1)
      else (rest2, df + 1, dd, fl)
    else (Dirt.cons name (Entry.file mt sz dg) rest2, df, dd, fl)
  | Dirt.cons name (Entry.dir dm ds sub) rest =>
    let (sub2, dfa, dda, fla) := reapList cfg s (rel ++ [name]) sub
    let (rest2, dfb, ddb, flb) := reapList cfg s rel rest
    if Rfun cfg s (rel ++ [name]) then
      match sub2 with
      | Dirt.nil => (rest2, dfa + dfb, dda + ddb + 1, fla + flb)
      | Dirt.cons n2 e2 r2 =>
        (Dirt.cons name (Entry.dir dm ds (Dirt.cons n2 e2 r2)) rest2,
         dfa + dfb, dda + ddb, fla + flb + 1)
    else (Dirt.cons name (Entry.dir dm ds sub2) rest2, dfa + dfb, dda + ddb, fla + flb)

/-- One serial `remove_extra_files()` call. -/
def reapRoot (cfg : C6Cfg) (s t : Dirt) : Dirt × ℕ × ℕ × ℕ :=
  reapList cfg s [] t

/-! ### C6 counterexample state -/

/-- `file` mode, no ignore rules, delete flag off. -/
def cfgConflict : C6Cfg := ⟨"file", 1, fun _ => false, false⟩

/-- Source: a single regular file `f`. -/
def sConflict : Dirt := Dirt.cons "f" (Entry.file 10 1 "x") Dirt.nil

/-- Target: an empty directory also named `f`. -/
def tConflict : Dirt := Dirt.cons "f" (Entry.dir 0 0 Dirt.nil) Dirt.nil

/-- Target after the sync phase: `shutil.copy2(src, dst)` with `dst` an
existing directory copies *into* it, producing `f/f`. -/
def tConflict1 : Dirt :=
  Dirt.cons "f" (Entry.dir 0 0 (Dirt.cons "f" (Entry.file 10 1 "x") Dirt.nil))
    Dirt.nil

/-- C6 counterexample.  Source holds a regular file `f`; target holds an empty
directory `f`; `file` (hash) mode.  The sync phase compares the file against
the directory, finds them different (sizes differ), and `shutil.copy2` drops
the file *inside* the directory — logged `M`, counted modified, no failure.
The reaper then deletes `f/f` (absent from source), restoring the target to
its original state.  The pass is "successful" (zero failures in both phases),
the trees are unchanged afterwards, yet the pass reported one modification and
one deletion — and re-running performs the identical non-zero pass again: the
second conjunct's input `tConflict` is exactly the state the first pass left
behind, so the second pass again yields `modified = 1` and `deleted = 1`,
refuting the claimed zeros. -/
theorem C6_cex :
    syncRootT cfgConflict sConflict tConflict = (tConflict1, 0, 1, 0) ∧
    reapRoot cfgConflict sConflict tConflict1 = (tConflict, 1, 0, 0) := by
  constructor <;> decide

/-! ### Auxiliary predicates and basic listing lemmas for the C6 proof -/

/-- Real directory listings: names are unique at every level. -/
def dirtWFb : Dirt → Bool
  | Dirt.nil => true
  | Dirt.cons n (Entry.file _ _ _) rest =>
    !((keysD rest).contains n) && dirtWFb rest
  | Dirt.cons n (Entry.dir _ _ ch) rest =>
    !((keysD rest).contains n) && dirtWFb ch && dirtWFb rest

/-- No non-ignored relative path holds a regular file in the source tree and a
directory in the target tree (recursively, along matching directories). -/
def noFD (cfg : C6Cfg) (rel : List String) : Dirt → Dirt → Bool
  | Dirt.nil, _ => true
  | Dirt.cons name (Entry.file _ _ _) rest, tc =>
    (if cfg.ign (rel ++ [name]) then true
     else
       match lookupD tc name with
       | some (Entry.dir _ _ _) => false
       | _ => true) &&
    noFD cfg rel rest tc
  | Dirt.cons name (Entry.dir _ _ sch) rest, tc =>
    (if cfg.ign (rel ++ [name]) then true
     else
       match lookupD tc name with
       | some (Entry.dir _ _ dch) => noFD cfg (rel ++ [name]) sch dch
       | _ => true) &&
    noFD cfg rel rest tc

/-- Postcondition of a zero-failure sync phase: every non-ignored source file
has a target file its mode-comparison accepts; every non-ignored source
directory has either a matching target directory (recursively in this state)
or a benign file conflict none of whose children would be visited. -/
def Post1 (cfg : C6Cfg) (rel : List String) : Dirt → Dirt → Prop
  | Dirt.nil, _ => True
  | Dirt.cons name (Entry.file mt sz dg) rest, tc =>
    (cfg.ign (rel ++ [name]) = true ∨
      ∃ fm fsz fdg, lookupD tc name = some (Entry.file fm fsz fdg) ∧
        compareFilesT cfg.mode cfg.tf mt sz dg (Entry.file fm fsz fdg) = true) ∧
    Post1 cfg rel rest tc
  | Dirt.cons name (Entry.dir _ _ sch) rest, tc =>
    (cfg.ign (rel ++ [name]) = true ∨
      (∃ dm ds dch, lookupD tc name = some (Entry.dir dm ds dch) ∧
        Post1 cfg (rel ++ [name]) sch dch) ∨
      (∃ fm fsz fdg, lookupD tc name = some (Entry.file fm fsz fdg) ∧
        countConflictFails cfg (rel ++ [name]) sch = 0)) ∧
    Post1 cfg rel rest tc

/-- Postcondition of a zero-failure reap phase: every surviving file is the
exempted log file or not redundant; every surviving directory is not redundant
and recursively reaped. -/
def Reaped (cfg : C6Cfg) (s : Dirt) (rel : List String) : Dirt → Prop
  | Dirt.nil => True
  | Dirt.cons name (Entry.file _ _ _) rest =>
    (rel ++ [name] = [logName] ∨ Rfun cfg s (rel ++ [name]) = false) ∧
    Reaped cfg s rel rest
  | Dirt.cons name (Entry.dir _ _ sub) rest =>
    Rfun cfg s (rel ++ [name]) = false ∧
    Reaped cfg s (rel ++ [name]) sub ∧
    Reaped cfg s rel rest

/-- List-like induction on a listing (entries opaque). -/
@[induction_eliminator]
theorem dirtInd {motive : Dirt → Prop} (nil : motive Dirt.nil)
    (cons : ∀ (name : String) (e : Entry) (rest : Dirt),
      motive rest → motive (Dirt.cons name e rest)) :
    ∀ d, motive d
  | Dirt.nil => nil
  | Dirt.cons n e rest => cons n e rest (dirtInd nil cons rest)

/-- Tree induction on a listing: the inductive hypothesis is also available
for the children of a directory entry. -/
@[elab_as_elim]
theorem dirtIndDeep {motive : Dirt → Prop} (nil : motive Dirt.nil)
    (file : ∀ (name : String) (mt : ℚ) (sz : ℕ) (dg : String) (rest : Dirt),
      motive rest → motive (Dirt.cons name (Entry.file mt sz dg) rest))
    (dir : ∀ (name : String) (mt : ℚ) (sz : ℕ) (ch rest : Dirt),
      motive ch → motive rest → motive (Dirt.cons name (Entry.dir mt sz ch) rest)) :
    ∀ d, motive d
  | Dirt.nil => nil
  | Dirt.cons n (Entry.file mt sz dg) rest =>
    file n mt sz dg rest (dirtIndDeep nil file dir rest)
  | Dirt.cons n (Entry.dir mt sz ch) rest =>
    dir n mt sz ch rest (dirtIndDeep nil file dir ch) (dirtIndDeep nil file dir rest)

theorem lookupD_insertD_self (d : Dirt) (n : String) (e : Entry) :
    lookupD (insertD d n e) n = some e := by
  induction d with
  | nil => simp [insertD, lookupD]
  | cons k v rest IH =>
    by_cases h : k = n
    · simp [insertD, lookupD, h]
    · simp [insertD, lookupD, h, IH]

theorem lookupD_insertD_ne (d : Dirt) (n k : String) (e : Entry) (h : k ≠ n) :
    lookupD (insertD d n e) k = lookupD d k := by
  have hnk : ¬ n = k := fun hh => h hh.symm
  induction d with
  | nil => simp [insertD, lookupD, hnk]
  | cons k2 v rest IH =>
    by_cases h2 : k2 = n
    · subst h2
      simp [insertD, lookupD, hnk]
    · simp [insertD, lookupD, h2, IH]

theorem insertD_self (d : Dirt) (n : String) (e : Entry)
    (h : lookupD d n = some e) : insertD d n e = d := by
  induction d with
  | nil => simp [lookupD] at h
  | cons k v rest IH =>
    by_cases h2 : k = n
    · subst h2
      simp [lookupD] at h
      simp [insertD, h]
    · simp [lookupD, h2] at h
      simp [insertD, h2, IH h]

theorem lookupD_mem_keysD (d : Dirt) (n : String) (e : Entry)
    (h : lookupD d n = some e) : n ∈ keysD d := by
  induction d with
  | nil => simp [lookupD] at h
  | cons k v rest IH =>
    by_cases h2 : k = n
    · subst h2; simp [keysD]
    · simp [lookupD, h2] at h
      simp [keysD]
      exact Or.inr (IH h)

theorem lookupD_eq_none_of_not_mem (d : Dirt) (n : String)
    (h : ¬ n ∈ keysD d) : lookupD d n = none := by
  cases hl : lookupD d n with
  | none => rfl
  | some e => exact absurd (lookupD_mem_keysD d n e hl) h


theorem compareFilesT_refl (mode : String) (tf : ℤ) (mt : ℚ) (sz : ℕ)
    (dg : String) (hm : mode = "date" ∨ mode = "file") :
    compareFilesT mode tf mt sz dg (Entry.file mt sz dg) = true := by
  cases hm with
  | inl h =>
    subst h
    unfold compareFilesT
    rw [if_pos rfl]
    show compareByDateSer tf mt mt = true
    unfold compareByDateSer
    rw [decide_eq_true_iff]
    have := microErr_nonneg tf
    omega
  | inr h =>
    subst h
    unfold compareFilesT
    rw [if_neg (by decide : ¬ ("file" : String) = "date"), if_pos rfl]
    show compareByHash sz dg sz dg = true
    unfold compareByHash
    simp

theorem redundantLoop_ignore0_false (fs : SyncFS) (delete : Bool) :
    ∀ (fuel : ℕ) (rel : List String) (red : Bool),
      redundantLoop fs delete false fuel rel red = red
  | 0, _, _ => rfl
  | fuel + 1, rel, red => by rw [redundantLoop]; simp

/-- A path that exists in source and is not ignored is never redundant. -/
theorem isRedundant_false_of (fs : SyncFS) (delete : Bool) (rel : List String)
    (hig : fs.ign rel = false) (hsrc : fs.existsSrc rel = true) :
    isRedundant fs delete rel = false := by
  unfold isRedundant
  cases hd : fs.existsDst rel with
  | false => simp [hd]
  | true =>
    simp only [hd, Bool.not_true, Bool.false_eq_true, if_false]
    rw [hig, redundantLoop_ignore0_false]
    simp [isRedundantBase, hig, hsrc]

theorem Rfun_false_of_src (cfg : C6Cfg) (s : Dirt) (rel : List String)
    (hig : cfg.ign rel = false) (hsrc : existsSrcB s rel = true) :
    Rfun cfg s rel = false :=
  isRedundant_false_of _ _ _ hig hsrc

theorem lookupPath_single (s : Dirt) (n : String) :
    lookupPath s [n] = lookupD s n := rfl

theorem lookupPath_extend (rel : List String) :
    ∀ (s : Dirt) (dm : ℚ) (ds : ℕ) (sub : Dirt) (k : String) (e : Entry),
      lookupPath s rel = some (Entry.dir dm ds sub) →
      lookupD sub k = some e → lookupPath s (rel ++ [k]) = some e := by
  induction rel with
  | nil =>
    intro s dm ds sub k e h1 _
    exact Option.noConfusion h1
  | cons n rest IH =>
    intro s dm ds sub k e h1 h2
    cases rest with
    | nil =>
      have h1' : lookupD s n = some (Entry.dir dm ds sub) := h1
      show lookupPath s [n, k] = some e
      rw [lookupPath, h1']
      exact h2
    | cons n2 rest2 =>
      rw [lookupPath] at h1
      cases hl : lookupD s n with
      | none => rw [hl] at h1; exact Option.noConfusion h1
      | some e2 =>
        cases e2 with
        | file fm fsz fdg => rw [hl] at h1; exact Option.noConfusion h1
        | dir m2 s2 ch2 =>
          rw [hl] at h1
          have h1' : lookupPath ch2 (n2 :: rest2) = some (Entry.dir dm ds sub) := h1
          show lookupPath s (n :: (n2 :: rest2) ++ [k]) = some e
          have hsh : (n :: (n2 :: rest2) ++ [k]) = n :: n2 :: (rest2 ++ [k]) := by
            simp
          rw [hsh, lookupPath, hl]
          exact IH ch2 dm ds sub k e h1' h2

theorem dirtWFb_cons (n : String) (e : Entry) (rest : Dirt)
    (h : dirtWFb (Dirt.cons n e rest) = true) :
    (keysD rest).contains n = false ∧ dirtWFb rest = true ∧
    (∀ dm ds ch, e = Entry.dir dm ds ch → dirtWFb ch = true) := by
  cases e with
  | file mt sz dg =>
    rw [dirtWFb] at h
    simp only [Bool.and_eq_true, Bool.not_eq_true'] at h
    exact ⟨h.1, h.2, by intro dm ds ch hh; cases hh⟩
  | dir dm ds ch =>
    rw [dirtWFb] at h
    simp only [Bool.and_eq_true, Bool.not_eq_true'] at h
    refine ⟨h.1.1, h.2, ?_⟩
    intro dm2 ds2 ch2 hh
    injection hh with _ _ h3
    subst h3
    exact h.1.2

theorem noFD_nil (cfg : C6Cfg) : ∀ (sch : Dirt) (rel : List String),
    noFD cfg rel sch Dirt.nil = true := by
  intro sch
  induction sch using dirtIndDeep with
  | nil => intro rel; rfl
  | file n mt sz dg rest IH =>
    intro rel
    rw [noFD]
    simp [lookupD, IH rel]
  | dir n mt sz ch rest IHch IHrest =>
    intro rel
    rw [noFD]
    simp [lookupD, IHrest rel]

theorem noFD_congr (cfg : C6Cfg) : ∀ (sch : Dirt) (rel : List String)
    (tc1 tc2 : Dirt),
    (∀ k, k ∈ keysD sch → lookupD tc1 k = lookupD tc2 k) →
    noFD cfg rel sch tc1 = noFD cfg rel sch tc2 := by
  intro sch
  induction sch using dirtIndDeep with
  | nil => intro rel tc1 tc2 _; rfl
  | file n mt sz dg rest IH =>
    intro rel tc1 tc2 hk
    have h1 : lookupD tc1 n = lookupD tc2 n := hk n (by simp [keysD])
    have h2 : ∀ k, k ∈ keysD rest → lookupD tc1 k = lookupD tc2 k :=
      fun k hk2 => hk k (by simp [keysD]; exact Or.inr hk2)
    rw [noFD, noFD, h1, IH rel tc1 tc2 h2]
  | dir n mt sz ch rest IHch IHrest =>
    intro rel tc1 tc2 hk
    have h1 : lookupD tc1 n = lookupD tc2 n := hk n (by simp [keysD])
    have h2 : ∀ k, k ∈ keysD rest → lookupD tc1 k = lookupD tc2 k :=
      fun k hk2 => hk k (by simp [keysD]; exact Or.inr hk2)
    rw [noFD, noFD, h1, IHrest rel tc1 tc2 h2]

theorem syncFileT_post (cfg : C6Cfg) (hm : cfg.mode = "date" ∨ cfg.mode = "file")
    (relName : List String) (name : String) (mt : ℚ) (sz : ℕ) (dg : String)
    (tc tc1 : Dirt) (w1 : Bool) (a1 m1 : ℕ)
    (hnd : ∀ dm ds dch, lookupD tc name ≠ some (Entry.dir dm ds dch))
    (hrun : syncFileT cfg relName name mt sz dg tc = (tc1, w1, a1, m1, 0)) :
    w1 = false ∧
    (∃ fm fsz fdg, lookupD tc1 name = some (Entry.file fm fsz fdg) ∧
      compareFilesT cfg.mode cfg.tf mt sz dg (Entry.file fm fsz fdg) = true) ∧
    (∀ k, k ≠ name → lookupD tc1 k = lookupD tc k) := by
  unfold syncFileT at hrun
  split at hrun
  case h_1 heq =>
    simp only [Prod.mk.injEq] at hrun
    obtain ⟨h1, h2, _, _, _⟩ := hrun
    subst h1; subst h2
    exact ⟨rfl,
      ⟨mt, sz, dg, lookupD_insertD_self tc name _,
        compareFilesT_refl _ _ _ _ _ hm⟩,
      fun k hk => lookupD_insertD_ne tc name k _ hk⟩
  case h_2 e heq =>
    cases e with
    | dir dm ds dch => exact absurd heq (hnd dm ds dch)
    | file fm fsz fdg =>
      split at hrun
      · -- comparison reported "same": nothing happens
        rename_i hc
        simp only [Prod.mk.injEq] at hrun
        obtain ⟨h1, h2, _, _, _⟩ := hrun
        subst h1; subst h2
        exact ⟨rfl, ⟨fm, fsz, fdg, heq, hc⟩, fun _ _ => rfl⟩
      · split at hrun
        · -- under the object store
          split at hrun
          · -- filename-pattern refusal: contributes a failure, impossible here
            simp only [Prod.mk.injEq] at hrun
            omega
          · -- guard removes the file, copy overwrites
            simp only [Prod.mk.injEq] at hrun
            obtain ⟨h1, h2, _, _, _⟩ := hrun
            subst h1; subst h2
            exact ⟨rfl,
              ⟨mt, sz, dg, lookupD_insertD_self tc name _,
                compareFilesT_refl _ _ _ _ _ hm⟩,
              fun k hk => lookupD_insertD_ne tc name k _ hk⟩
        · -- ordinary overwrite
          simp only [Prod.mk.injEq] at hrun
          obtain ⟨h1, h2, _, _, _⟩ := hrun
          subst h1; subst h2
          exact ⟨rfl,
            ⟨mt, sz, dg, lookupD_insertD_self tc name _,
              compareFilesT_refl _ _ _ _ _ hm⟩,
            fun k hk => lookupD_insertD_ne tc name k _ hk⟩

theorem sizeOf_rest_lt (n : String) (e : Entry) (rest : Dirt) :
    sizeOf rest < sizeOf (Dirt.cons n e rest) := by
  simp only [Dirt.cons.sizeOf_spec]
  omega

theorem sizeOf_dirch_lt (n : String) (dm : ℚ) (ds : ℕ) (ch rest : Dirt) :
    sizeOf ch < sizeOf (Dirt.cons n (Entry.dir dm ds ch) rest) := by
  simp only [Dirt.cons.sizeOf_spec, Entry.dir.sizeOf_spec]
  omega

theorem noFD_cons_rest (cfg : C6Cfg) (rel : List String) (n : String) (e : Entry)
    (rest tc : Dirt) (h : noFD cfg rel (Dirt.cons n e rest) tc = true) :
    noFD cfg rel rest tc = true := by
  cases e <;> (rw [noFD] at h; simp only [Bool.and_eq_true] at h; exact h.2)

theorem noFD_cons_file_nd (cfg : C6Cfg) (rel : List String) (n : String)
    (mt : ℚ) (sz : ℕ) (dg : String) (rest tc : Dirt)
    (hig : cfg.ign (rel ++ [n]) = false)
    (h : noFD cfg rel (Dirt.cons n (Entry.file mt sz dg) rest) tc = true) :
    ∀ dm ds dch, lookupD tc n ≠ some (Entry.dir dm ds dch) := by
  intro dm ds dch hl
  rw [noFD] at h
  simp only [Bool.and_eq_true] at h
  have h1 := h.1
  rw [if_neg (by rw [hig]; exact Bool.false_ne_true), hl] at h1
  exact Bool.noConfusion h1

theorem noFD_cons_dir_deep (cfg : C6Cfg) (rel : List String) (n : String)
    (dm0 : ℚ) (ds0 : ℕ) (sch : Dirt) (rest tc : Dirt)
    (dm : ℚ) (ds : ℕ) (dch : Dirt)
    (hig : cfg.ign (rel ++ [n]) = false)
    (hl : lookupD tc n = some (Entry.dir dm ds dch))
    (h : noFD cfg rel (Dirt.cons n (Entry.dir dm0 ds0 sch) rest) tc = true) :
    noFD cfg (rel ++ [n]) sch dch = true := by
  rw [noFD] at h
  simp only [Bool.and_eq_true] at h
  have h1 := h.1
  rw [if_neg (by rw [hig]; exact Bool.false_ne_true), hl] at h1
  exact h1

theorem keysD_cons (n : String) (e : Entry) (rest : Dirt) :
    keysD (Dirt.cons n e rest) = n :: keysD rest := rfl

/-- A zero-failure sync run (on a well-formed source listing with no
file-over-directory conflict) leaves the `wiped` flag clear, establishes the
`Post1` postcondition, and changes the target listing only at the names of the
source listing. -/
theorem syncList_post (cfg : C6Cfg) (hm : cfg.mode = "date" ∨ cfg.mode = "file") :
    ∀ (k : ℕ) (sch : Dirt), sizeOf sch ≤ k →
      ∀ (rel : List String) (tc tc' : Dirt) (w' : Bool) (a m : ℕ),
        dirtWFb sch = true →
        noFD cfg rel sch tc = true →
        syncList cfg rel sch tc false = (tc', w', a, m, 0) →
        w' = false ∧ Post1 cfg rel sch tc' ∧
          (∀ n, ¬ n ∈ keysD sch → lookupD tc' n = lookupD tc n) := by
  intro k
  induction k using Nat.strong_induction_on with
  | _ k IH =>
  intro sch hsz rel tc tc' w' a m hwf hfd hrun
  cases sch with
  | nil =>
    rw [syncList] at hrun
    simp only [Prod.mk.injEq] at hrun
    obtain ⟨h1, h2, _, _, _⟩ := hrun
    subst h1; subst h2
    exact ⟨rfl, trivial, fun _ _ => rfl⟩
  | cons name e rest =>
    obtain ⟨hkey, hwfr, hwfd⟩ := dirtWFb_cons name e rest hwf
    have hnr : ¬ name ∈ keysD rest := by simpa using hkey
    have hszr : sizeOf rest < k := lt_of_lt_of_le (sizeOf_rest_lt name e rest) hsz
    cases e with
    | file mt sz dg =>
      rw [syncList] at hrun
      by_cases hig : cfg.ign (rel ++ [name]) = true
      · rw [if_pos hig] at hrun
        obtain ⟨hw, hp, hfr⟩ := IH (sizeOf rest) hszr rest le_rfl rel tc tc' w' a m
          hwfr (noFD_cons_rest _ _ _ _ _ _ hfd) hrun
        refine ⟨hw, ?_, ?_⟩
        · rw [Post1]
          exact ⟨Or.inl hig, hp⟩
        · intro n hn
          rw [keysD_cons] at hn
          exact hfr n (fun hmem => hn (List.mem_cons_of_mem _ hmem))
      · have hig' : cfg.ign (rel ++ [name]) = false := by
          revert hig; cases cfg.ign (rel ++ [name]) <;> simp
        rw [if_neg hig] at hrun
        simp only [Bool.false_eq_true, if_false] at hrun
        rcases hs1 : syncFileT cfg (rel ++ [name]) name mt sz dg tc with
          ⟨tc1, w1, a1, m1, f1⟩
        rw [hs1] at hrun
        rcases hs2 : syncList cfg rel rest tc1 w1 with ⟨tc2, w2, a2, m2, f2⟩
        simp only [hs2, Prod.mk.injEq] at hrun
        obtain ⟨h1, h2, _, _, h5⟩ := hrun
        subst h1; subst h2
        have hf1 : f1 = 0 := by omega
        have hf2 : f2 = 0 := by omega
        subst hf1; subst hf2
        have hnd := noFD_cons_file_nd cfg rel name mt sz dg rest tc hig' hfd
        obtain ⟨hw1, ⟨fm, fsz, fdg, hlk, hcmp⟩, hfr1⟩ :=
          syncFileT_post cfg hm (rel ++ [name]) name mt sz dg tc tc1 w1 a1 m1 hnd hs1
        subst hw1
        have hfdr : noFD cfg rel rest tc1 = true := by
          rw [noFD_congr cfg rest rel tc1 tc
            (fun kk hkk => hfr1 kk (fun he => hnr (he ▸ hkk)))]
          exact noFD_cons_rest _ _ _ _ _ _ hfd
        obtain ⟨hw2, hp2, hfr2⟩ := IH (sizeOf rest) hszr rest le_rfl rel tc1 tc2 w2 a2 m2
          hwfr hfdr hs2
        refine ⟨hw2, ?_, ?_⟩
        · rw [Post1]
          refine ⟨Or.inr ⟨fm, fsz, fdg, ?_, hcmp⟩, hp2⟩
          rw [hfr2 name hnr]
          exact hlk
        · intro n hn
          rw [keysD_cons] at hn
          have hn1 : ¬ n ∈ keysD rest := fun hmem => hn (List.mem_cons_of_mem _ hmem)
          have hn2 : n ≠ name := fun he => hn (he ▸ List.mem_cons_self _ _)
          rw [hfr2 n hn1, hfr1 n hn2]
    | dir dm0 ds0 sch2 =>
      rw [syncList] at hrun
      by_cases hig : cfg.ign (rel ++ [name]) = true
      · rw [if_pos hig] at hrun
        obtain ⟨hw, hp, hfr⟩ := IH (sizeOf rest) hszr rest le_rfl rel tc tc' w' a m
          hwfr (noFD_cons_rest _ _ _ _ _ _ hfd) hrun
        refine ⟨hw, ?_, ?_⟩
        · rw [Post1]
          exact ⟨Or.inl hig, hp⟩
        · intro n hn
          rw [keysD_cons] at hn
          exact hfr n (fun hmem => hn (List.mem_cons_of_mem _ hmem))
      · have hig' : cfg.ign (rel ++ [name]) = false := by
          revert hig; cases cfg.ign (rel ++ [name]) <;> simp
        rw [if_neg hig] at hrun
        simp only [Bool.false_eq_true, if_false] at hrun
        split at hrun
        next fm fsz fdg heq =>
          rcases hs2 : syncList cfg rel rest tc false with ⟨tc2, w2, a2, m2, f2⟩
          simp only [hs2, Prod.mk.injEq] at hrun
          obtain ⟨h1, h2, _, _, h5⟩ := hrun
          subst h1; subst h2
          have hcnt : countConflictFails cfg (rel ++ [name]) sch2 = 0 := by omega
          have hf2 : f2 = 0 := by omega
          subst hf2
          obtain ⟨hw2, hp2, hfr2⟩ := IH (sizeOf rest) hszr rest le_rfl rel tc tc2 w2 a2 m2
            hwfr (noFD_cons_rest _ _ _ _ _ _ hfd) hs2
          refine ⟨hw2, ?_, ?_⟩
          · rw [Post1]
            refine ⟨Or.inr (Or.inr ⟨fm, fsz, fdg, ?_, hcnt⟩), hp2⟩
            rw [hfr2 name hnr]
            exact heq
          · intro n hn
            rw [keysD_cons] at hn
            exact hfr2 n (fun hmem => hn (List.mem_cons_of_mem _ hmem))
        next dm ds dch heq =>
          rcases hs1 : syncList cfg (rel ++ [name]) sch2 dch false with
            ⟨ch2, cw, a1, m1, f1⟩
          rw [hs1] at hrun
          rcases hs2 : syncList cfg rel rest
              (if cw then removeD tc name else insertD tc name (Entry.dir dm ds ch2))
              false with ⟨tc2, w2, a2, m2, f2⟩
          simp only [hs2, Prod.mk.injEq] at hrun
          obtain ⟨h1, h2, _, _, h5⟩ := hrun
          subst h1; subst h2
          have hf1 : f1 = 0 := by omega
          have hf2 : f2 = 0 := by omega
          subst hf1; subst hf2
          have hsz2 : sizeOf sch2 < k :=
            lt_of_lt_of_le (sizeOf_dirch_lt name dm0 ds0 sch2 rest) hsz
          have hwfc : dirtWFb sch2 = true := hwfd dm0 ds0 sch2 rfl
          have hfdc := noFD_cons_dir_deep cfg rel name dm0 ds0 sch2 rest tc dm ds dch
            hig' heq hfd
          obtain ⟨hcw, hp1, _⟩ := IH (sizeOf sch2) hsz2 sch2 le_rfl (rel ++ [name])
            dch ch2 cw a1 m1 hwfc hfdc hs1
          subst hcw
          simp only [Bool.false_eq_true, if_false] at hs2
          have hfdr : noFD cfg rel rest (insertD tc name (Entry.dir dm ds ch2)) = true := by
            rw [noFD_congr cfg rest rel _ tc
              (fun kk hkk => lookupD_insertD_ne tc name kk _ (fun he => hnr (he ▸ hkk)))]
            exact noFD_cons_rest _ _ _ _ _ _ hfd
          obtain ⟨hw2, hp2, hfr2⟩ := IH (sizeOf rest) hszr rest le_rfl rel _ tc2 w2 a2 m2
            hwfr hfdr hs2
          refine ⟨hw2, ?_, ?_⟩
          · rw [Post1]
            refine ⟨Or.inr (Or.inl ⟨dm, ds, ch2, ?_, hp1⟩), hp2⟩
            rw [hfr2 name hnr, lookupD_insertD_self]
          · intro n hn
            rw [keysD_cons] at hn
            have hn1 : ¬ n ∈ keysD rest := fun hmem => hn (List.mem_cons_of_mem _ hmem)
            have hn2 : n ≠ name := fun he => hn (he ▸ List.mem_cons_self _ _)
            rw [hfr2 n hn1, lookupD_insertD_ne tc name n _ hn2]
        next heq =>
          rcases hs1 : syncList cfg (rel ++ [name]) sch2 Dirt.nil false with
            ⟨ch2, cw, a1, m1, f1⟩
          rw [hs1] at hrun
          rcases hs2 : syncList cfg rel rest
              (if cw then tc else insertD tc name (Entry.dir 0 0 ch2))
              false with ⟨tc2, w2, a2, m2, f2⟩
          simp only [hs2, Prod.mk.injEq] at hrun
          obtain ⟨h1, h2, _, _, h5⟩ := hrun
          subst h1; subst h2
          have hf1 : f1 = 0 := by omega
          have hf2 : f2 = 0 := by omega
          subst hf1; subst hf2
          have hsz2 : sizeOf sch2 < k :=
            lt_of_lt_of_le (sizeOf_dirch_lt name dm0 ds0 sch2 rest) hsz
          have hwfc : dirtWFb sch2 = true := hwfd dm0 ds0 sch2 rfl
          obtain ⟨hcw, hp1, _⟩ := IH (sizeOf sch2) hsz2 sch2 le_rfl (rel ++ [name])
            Dirt.nil ch2 cw a1 m1 hwfc (noFD_nil cfg sch2 (rel ++ [name])) hs1
          subst hcw
          simp only [Bool.false_eq_true, if_false] at hs2
          have hfdr : noFD cfg rel rest (insertD tc name (Entry.dir 0 0 ch2)) = true := by
            rw [noFD_congr cfg rest rel _ tc
              (fun kk hkk => lookupD_insertD_ne tc name kk _ (fun he => hnr (he ▸ hkk)))]
            exact noFD_cons_rest _ _ _ _ _ _ hfd
          obtain ⟨hw2, hp2, hfr2⟩ := IH (sizeOf rest) hszr rest le_rfl rel _ tc2 w2 a2 m2
            hwfr hfdr hs2
          refine ⟨hw2, ?_, ?_⟩
          · rw [Post1]
            refine ⟨Or.inr (Or.inl ⟨0, 0, ch2, ?_, hp1⟩), hp2⟩
            rw [hfr2 name hnr, lookupD_insertD_self]
          · intro n hn
            rw [keysD_cons] at hn
            have hn1 : ¬ n ∈ keysD rest := fun hmem => hn (List.mem_cons_of_mem _ hmem)
            have hn2 : n ≠ name := fun he => hn (he ▸ List.mem_cons_self _ _)
            rw [hfr2 n hn1, lookupD_insertD_ne tc name n _ hn2]

/-- On a state satisfying `Post1`, a sync run does nothing: the target listing
is unchanged and no file is added, modified, or failed. -/
theorem syncList_nop (cfg : C6Cfg) :
    ∀ (k : ℕ) (sch : Dirt), sizeOf sch ≤ k →
      ∀ (rel : List String) (tc : Dirt),
        Post1 cfg rel sch tc →
        syncList cfg rel sch tc false = (tc, false, 0, 0, 0) := by
  intro k
  induction k using Nat.strong_induction_on with
  | _ k IH =>
  intro sch hsz rel tc hp
  cases sch with
  | nil => rw [syncList]
  | cons name e rest =>
    have hszr : sizeOf rest < k := lt_of_lt_of_le (sizeOf_rest_lt name e rest) hsz
    cases e with
    | file mt sz dg =>
      rw [Post1] at hp
      obtain ⟨hhead, hrest⟩ := hp
      rw [syncList]
      by_cases hig : cfg.ign (rel ++ [name]) = true
      · rw [if_pos hig]
        exact IH (sizeOf rest) hszr rest le_rfl rel tc hrest
      · rcases hhead with hig2 | ⟨fm, fsz, fdg, hlk, hcmp⟩
        · exact absurd hig2 hig
        · rw [if_neg hig]
          simp only [Bool.false_eq_true, if_false]
          have hsf : syncFileT cfg (rel ++ [name]) name mt sz dg tc =
              (tc, false, 0, 0, 0) := by
            unfold syncFileT
            rw [hlk]
            simp [hcmp]
          rw [hsf]
          have hrec := IH (sizeOf rest) hszr rest le_rfl rel tc hrest
          simp only [hrec]
    | dir dm0 ds0 sch2 =>
      rw [Post1] at hp
      obtain ⟨hhead, hrest⟩ := hp
      rw [syncList]
      by_cases hig : cfg.ign (rel ++ [name]) = true
      · rw [if_pos hig]
        exact IH (sizeOf rest) hszr rest le_rfl rel tc hrest
      · rcases hhead with hig2 | ⟨dm, ds, dch, hlk, hp1⟩ | ⟨fm, fsz, fdg, hlk, hcnt⟩
        · exact absurd hig2 hig
        · rw [if_neg hig]
          simp only [Bool.false_eq_true, if_false]
          have hsz2 : sizeOf sch2 < k :=
            lt_of_lt_of_le (sizeOf_dirch_lt name dm0 ds0 sch2 rest) hsz
          have hrec1 := IH (sizeOf sch2) hsz2 sch2 le_rfl (rel ++ [name]) dch hp1
          have hrec2 := IH (sizeOf rest) hszr rest le_rfl rel tc hrest
          simp only [hlk, hrec1, Bool.false_eq_true, if_false,
            insertD_self tc name (Entry.dir dm ds dch) hlk, hrec2]
        · rw [if_neg hig]
          simp only [Bool.false_eq_true, if_false]
          have hrec2 := IH (sizeOf rest) hszr rest le_rfl rel tc hrest
          simp only [hlk, hcnt, hrec2]

/-- A file entry at the head of a reaped listing is either kept unchanged, or
dropped because it was redundant. -/
theorem reapList_cons_file_shape (cfg : C6Cfg) (s : Dirt) (rel : List String)
    (name : String) (mt : ℚ) (sz : ℕ) (dg : String) (rest : Dirt) :
    (reapList cfg s rel (Dirt.cons name (Entry.file mt sz dg) rest)).1 =
        Dirt.cons name (Entry.file mt sz dg) (reapList cfg s rel rest).1 ∨
      ((reapList cfg s rel (Dirt.cons name (Entry.file mt sz dg) rest)).1 =
          (reapList cfg s rel rest).1 ∧
        Rfun cfg s (rel ++ [name]) = true) := by
  rw [reapList]
  rcases hrr : reapList cfg s rel rest with ⟨rest2, df, dd, fl⟩
  simp only [hrr]
  split_ifs with h1 h2 h3 h4
  · exact Or.inl rfl
  · exact Or.inr ⟨rfl, h2⟩
  · exact Or.inl rfl
  · exact Or.inr ⟨rfl, h2⟩
  · exact Or.inl rfl

/-- A directory entry at the head of a reaped listing is either kept with its
reaped children, or dropped because it was redundant (and empty). -/
theorem reapList_cons_dir_shape (cfg : C6Cfg) (s : Dirt) (rel : List String)
    (name : String) (dm : ℚ) (ds : ℕ) (sub rest : Dirt) :
    (reapList cfg s rel (Dirt.cons name (Entry.dir dm ds sub) rest)).1 =
        Dirt.cons name (Entry.dir dm ds (reapList cfg s (rel ++ [name]) sub).1)
          (reapList cfg s rel rest).1 ∨
      ((reapList cfg s rel (Dirt.cons name (Entry.dir dm ds sub) rest)).1 =
          (reapList cfg s rel rest).1 ∧
        Rfun cfg s (rel ++ [name]) = true) := by
  rw [reapList]
  rcases hss : reapList cfg s (rel ++ [name]) sub with ⟨sub2, dfa, dda, fla⟩
  rcases hrr : reapList cfg s rel rest with ⟨rest2, dfb, ddb, flb⟩
  simp only [hss, hrr]
  by_cases hR : Rfun cfg s (rel ++ [name]) = true
  · rw [if_pos hR]
    cases sub2 with
    | nil => exact Or.inr ⟨rfl, hR⟩
    | cons n2 e2 r2 => exact Or.inl rfl
  · rw [if_neg hR]
    exact Or.inl rfl

/-- Entries that are not redundant survive a reap with their value; surviving
directories carry their reaped children. -/
theorem reapList_keep (cfg : C6Cfg) (s : Dirt) :
    ∀ (tch : Dirt) (rel : List String) (n : String),
      Rfun cfg s (rel ++ [n]) = false →
      (∀ mt sz dg, lookupD tch n = some (Entry.file mt sz dg) →
        lookupD (reapList cfg s rel tch).1 n = some (Entry.file mt sz dg)) ∧
      (∀ dm ds sub, lookupD tch n = some (Entry.dir dm ds sub) →
        lookupD (reapList cfg s rel tch).1 n =
          some (Entry.dir dm ds (reapList cfg s (rel ++ [n]) sub).1)) := by
  intro tch
  induction tch using dirtIndDeep with
  | nil =>
    intro rel n _
    exact ⟨fun mt sz dg h => Option.noConfusion h,
      fun dm ds sub h => Option.noConfusion h⟩
  | file name2 mt2 sz2 dg2 rest2 IH =>
    intro rel n hR
    by_cases hne : name2 = n
    · subst hne
      constructor
      · intro mt sz dg hl
        have hl' : (some (Entry.file mt2 sz2 dg2) : Option Entry) =
            some (Entry.file mt sz dg) := by
          rw [← hl]; simp [lookupD]
        rcases reapList_cons_file_shape cfg s rel name2 mt2 sz2 dg2 rest2 with
          hs | ⟨_, hRt⟩
        · rw [hs]
          simp only [lookupD, if_pos rfl]
          exact hl'
        · rw [hRt] at hR; exact Bool.noConfusion hR
      · intro dm ds sub hl
        have hl' : (some (Entry.file mt2 sz2 dg2) : Option Entry) =
            some (Entry.dir dm ds sub) := by
          rw [← hl]; simp [lookupD]
        simp at hl'
    · have hlr : lookupD (Dirt.cons name2 (Entry.file mt2 sz2 dg2) rest2) n =
          lookupD rest2 n := by simp [lookupD, hne]
      obtain ⟨IHf, IHd⟩ := IH rel n hR
      rcases reapList_cons_file_shape cfg s rel name2 mt2 sz2 dg2 rest2 with
        hs | ⟨hs, _⟩
      · constructor
        · intro mt sz dg hl
          rw [hs]
          simp only [lookupD, if_neg hne]
          exact IHf mt sz dg (hlr ▸ hl)
        · intro dm ds sub hl
          rw [hs]
          simp only [lookupD, if_neg hne]
          exact IHd dm ds sub (hlr ▸ hl)
      · exact ⟨fun mt sz dg hl => hs ▸ IHf mt sz dg (hlr ▸ hl),
          fun dm ds sub hl => hs ▸ IHd dm ds sub (hlr ▸ hl)⟩
  | dir name2 dm2 ds2 sub2 rest2 IHsub IHrest =>
    intro rel n hR
    by_cases hne : name2 = n
    · subst hne
      constructor
      · intro mt sz dg hl
        have hl' : (some (Entry.dir dm2 ds2 sub2) : Option Entry) =
            some (Entry.file mt sz dg) := by
          rw [← hl]; simp [lookupD]
        simp at hl'
      · intro dm ds sub hl
        have hl' : (some (Entry.dir dm2 ds2 sub2) : Option Entry) =
            some (Entry.dir dm ds sub) := by
          rw [← hl]; simp [lookupD]
        simp only [Option.some.injEq] at hl'
        obtain ⟨he1, he2, he3⟩ := Entry.dir.injEq dm2 ds2 sub2 dm ds sub ▸ hl'
        rcases reapList_cons_dir_shape cfg s rel name2 dm2 ds2 sub2 rest2 with
          hs | ⟨_, hRt⟩
        · subst he1; subst he2; subst he3
          rw [hs]
          simp [lookupD]
        · rw [hRt] at hR; exact Bool.noConfusion hR
    · have hlr : lookupD (Dirt.cons name2 (Entry.dir dm2 ds2 sub2) rest2) n =
          lookupD rest2 n := by simp [lookupD, hne]
      obtain ⟨IHf, IHd⟩ := IHrest rel n hR
      rcases reapList_cons_dir_shape cfg s rel name2 dm2 ds2 sub2 rest2 with
        hs | ⟨hs, _⟩
      · constructor
        · intro mt sz dg hl
          rw [hs]
          simp only [lookupD, if_neg hne]
          exact IHf mt sz dg (hlr ▸ hl)
        · intro dm ds sub hl
          rw [hs]
          simp only [lookupD, if_neg hne]
          exact IHd dm ds sub (hlr ▸ hl)
      · exact ⟨fun mt sz dg hl => hs ▸ IHf mt sz dg (hlr ▸ hl),
          fun dm ds sub hl => hs ▸ IHd dm ds sub (hlr ▸ hl)⟩

/-- Reaping preserves the sync postcondition: the entries `Post1` speaks about
exist in source at non-ignored paths, hence are never redundant, hence
survive the reap with their values (directories with their reaped children). -/
theorem Post1_reap (cfg : C6Cfg) (s : Dirt) :
    ∀ (k : ℕ) (sch : Dirt), sizeOf sch ≤ k →
      ∀ (rel : List String) (tc : Dirt),
        dirtWFb sch = true →
        (∀ n e, lookupD sch n = some e → lookupPath s (rel ++ [n]) = some e) →
        Post1 cfg rel sch tc →
        Post1 cfg rel sch (reapList cfg s rel tc).1 := by
  intro k
  induction k using Nat.strong_induction_on with
  | _ k IH =>
  intro sch hsz rel tc hwf hcov hp
  cases sch with
  | nil => trivial
  | cons name e rest =>
    obtain ⟨hkey, hwfr, hwfd⟩ := dirtWFb_cons name e rest hwf
    have hnr : ¬ name ∈ keysD rest := by simpa using hkey
    have hszr : sizeOf rest < k := lt_of_lt_of_le (sizeOf_rest_lt name e rest) hsz
    have hcovr : ∀ n e2, lookupD rest n = some e2 →
        lookupPath s (rel ++ [n]) = some e2 := by
      intro n e2 hl
      have hmem := lookupD_mem_keysD rest n e2 hl
      have hne : ¬ name = n := fun he => hnr (he ▸ hmem)
      exact hcov n e2 (by simpa [lookupD, hne] using hl)
    have hcovh : lookupPath s (rel ++ [name]) = some e :=
      hcov name e (by simp [lookupD])
    have hsrc : existsSrcB s (rel ++ [name]) = true := by
      simp [existsSrcB, hcovh]
    cases e with
    | file mt sz dg =>
      rw [Post1] at hp
      obtain ⟨hhead, hrest⟩ := hp
      rw [Post1]
      refine ⟨?_, IH (sizeOf rest) hszr rest le_rfl rel tc hwfr hcovr hrest⟩
      by_cases hig : cfg.ign (rel ++ [name]) = true
      · exact Or.inl hig
      · have hig' : cfg.ign (rel ++ [name]) = false := by
          revert hig; cases cfg.ign (rel ++ [name]) <;> simp
        rcases hhead with hig2 | ⟨fm, fsz, fdg, hlk, hcmp⟩
        · exact absurd hig2 hig
        · have hR := Rfun_false_of_src cfg s (rel ++ [name]) hig' hsrc
          exact Or.inr ⟨fm, fsz, fdg,
            (reapList_keep cfg s tc rel name hR).1 fm fsz fdg hlk, hcmp⟩
    | dir dm0 ds0 sch2 =>
      rw [Post1] at hp
      obtain ⟨hhead, hrest⟩ := hp
      rw [Post1]
      refine ⟨?_, IH (sizeOf rest) hszr rest le_rfl rel tc hwfr hcovr hrest⟩
      by_cases hig : cfg.ign (rel ++ [name]) = true
      · exact Or.inl hig
      · have hig' : cfg.ign (rel ++ [name]) = false := by
          revert hig; cases cfg.ign (rel ++ [name]) <;> simp
        have hR := Rfun_false_of_src cfg s (rel ++ [name]) hig' hsrc
        rcases hhead with hig2 | ⟨dm, ds, dch, hlk, hp1⟩ | ⟨fm, fsz, fdg, hlk, hcnt⟩
        · exact absurd hig2 hig
        · have hsz2 : sizeOf sch2 < k :=
            lt_of_lt_of_le (sizeOf_dirch_lt name dm0 ds0 sch2 rest) hsz
          have hwfc : dirtWFb sch2 = true := hwfd dm0 ds0 sch2 rfl
          have hcovc : ∀ n e2, lookupD sch2 n = some e2 →
              lookupPath s ((rel ++ [name]) ++ [n]) = some e2 := by
            intro n e2 hl
            exact lookupPath_extend (rel ++ [name]) s dm0 ds0 sch2 n e2 hcovh hl
          refine Or.inr (Or.inl ⟨dm, ds, (reapList cfg s (rel ++ [name]) dch).1,
            (reapList_keep cfg s tc rel name hR).2 dm ds dch hlk, ?_⟩)
          exact IH (sizeOf sch2) hsz2 sch2 le_rfl (rel ++ [name]) dch hwfc hcovc hp1
        · exact Or.inr (Or.inr ⟨fm, fsz, fdg,
            (reapList_keep cfg s tc rel name hR).1 fm fsz fdg hlk, hcnt⟩)

/-- After a zero-failure reap, every surviving file is the exempted log file
or not redundant, and every surviving directory is not redundant with a
recursively reaped listing. -/
theorem reapList_reaped (cfg : C6Cfg) (s : Dirt) :
    ∀ (tch : Dirt) (rel : List String) (tc2 : Dirt) (df dd : ℕ),
      reapList cfg s rel tch = (tc2, df, dd, 0) →
      Reaped cfg s rel tc2 := by
  intro tch
  induction tch using dirtIndDeep with
  | nil =>
    intro rel tc2 df dd hrun
    rw [reapList] at hrun
    simp only [Prod.mk.injEq] at hrun
    obtain ⟨h1, _, _, _⟩ := hrun
    subst h1
    trivial
  | file name mt sz dg rest IH =>
    intro rel tc2 df dd hrun
    rw [reapList] at hrun
    rcases hrr : reapList cfg s rel rest with ⟨rest2, dfb, ddb, flb⟩
    simp only [hrr] at hrun
    split_ifs at hrun with h1 h2 h3 h4
    all_goals simp only [Prod.mk.injEq] at hrun
    · obtain ⟨he, _, _, hf⟩ := hrun
      subst he
      rw [Reaped]
      exact ⟨Or.inl h1, IH rel rest2 dfb ddb (by rw [hrr, hf])⟩
    · obtain ⟨he, _, _, hf⟩ := hrun
      subst he
      exact IH rel rest2 dfb ddb (by rw [hrr, hf])
    · omega
    · obtain ⟨he, _, _, hf⟩ := hrun
      subst he
      exact IH rel rest2 dfb ddb (by rw [hrr, hf])
    · obtain ⟨he, _, _, hf⟩ := hrun
      subst he
      rw [Reaped]
      refine ⟨Or.inr ?_, IH rel rest2 dfb ddb (by rw [hrr, hf])⟩
      revert h2; cases Rfun cfg s (rel ++ [name]) <;> simp
  | dir name dm ds sub rest IHsub IHrest =>
    intro rel tc2 df dd hrun
    rw [reapList] at hrun
    rcases hss : reapList cfg s (rel ++ [name]) sub with ⟨sub2, dfa, dda, fla⟩
    rcases hrr : reapList cfg s rel rest with ⟨rest2, dfb, ddb, flb⟩
    simp only [hss, hrr] at hrun
    by_cases hR : Rfun cfg s (rel ++ [name]) = true
    · rw [if_pos hR] at hrun
      cases sub2 with
      | nil =>
        simp only [Prod.mk.injEq] at hrun
        obtain ⟨he, _, _, hf⟩ := hrun
        subst he
        exact IHrest rel rest2 dfb ddb (by rw [hrr]; congr 3; omega)
      | cons n2 e2 r2 =>
        simp only [Prod.mk.injEq] at hrun
        omega
    · rw [if_neg hR] at hrun
      simp only [Prod.mk.injEq] at hrun
      obtain ⟨he, _, _, hf⟩ := hrun
      subst he
      rw [Reaped]
      refine ⟨?_, ?_, ?_⟩
      · revert hR; cases Rfun cfg s (rel ++ [name]) <;> simp
      · exact IHsub (rel ++ [name]) sub2 dfa dda (by rw [hss]; congr 3; omega)
      · exact IHrest rel rest2 dfb ddb (by rw [hrr]; congr 3; omega)

/-- A reap over an already reaped listing is a no-op. -/
theorem reapList_nop (cfg : C6Cfg) (s : Dirt) :
    ∀ (tch : Dirt) (rel : List String),
      Reaped cfg s rel tch →
      reapList cfg s rel tch = (tch, 0, 0, 0) := by
  intro tch
  induction tch using dirtIndDeep with
  | nil => intro rel _; rw [reapList]
  | file name mt sz dg rest IH =>
    intro rel hrp
    rw [Reaped] at hrp
    obtain ⟨hhead, hrest⟩ := hrp
    rw [reapList]
    simp only [IH rel hrest]
    by_cases hlog : rel ++ [name] = [logName]
    · rw [if_pos hlog]
    · rw [if_neg hlog]
      rcases hhead with hlog2 | hR
      · exact absurd hlog2 hlog
      · rw [if_neg (by rw [hR]; exact Bool.false_ne_true)]
  | dir name dm ds sub rest IHsub IHrest =>
    intro rel hrp
    rw [Reaped] at hrp
    obtain ⟨hR, hsub, hrest⟩ := hrp
    rw [reapList]
    simp only [IHsub (rel ++ [name]) hsub, IHrest rel hrest]
    rw [if_neg (by rw [hR]; exact Bool.false_ne_true)]

/-- C6 as amended.  Provided additionally that no non-ignored relative path is
a regular file in the source tree and a directory in the target tree, a pass
(serial `sync_directory` followed by `remove_extra_files`) that completes with
zero failures reaches a fixpoint: immediately re-running the pass on the
resulting trees performs no action at all — zero added files, zero modified
files, zero deleted files, zero deleted directories (and no failures), and the
target tree is left untouched by both phases. -/
theorem C6_thm (cfg : C6Cfg) (s t t1 t2 : Dirt) (a1 m1 df1 dd1 : ℕ)
    (hm : cfg.mode = "date" ∨ cfg.mode = "file")
    (hwf : dirtWFb s = true)
    (hfd : noFD cfg [] s t = true)
    (h1 : syncRootT cfg s t = (t1, a1, m1, 0))
    (h2 : reapRoot cfg s t1 = (t2, df1, dd1, 0)) :
    syncRootT cfg s t2 = (t2, 0, 0, 0) ∧ reapRoot cfg s t2 = (t2, 0, 0, 0) := by
  unfold syncRootT at h1
  rcases hsl : syncList cfg [] s t false with ⟨tc, w, a, m, f⟩
  rw [hsl] at h1
  simp only [Prod.mk.injEq] at h1
  obtain ⟨ht1, _, _, hf0⟩ := h1
  subst hf0
  obtain ⟨hw0, hp, _⟩ :=
    syncList_post cfg hm (sizeOf s) s le_rfl [] t tc w a m hwf hfd hsl
  subst hw0
  simp only [Bool.false_eq_true, if_false] at ht1
  subst ht1
  have hcov : ∀ n e, lookupD s n = some e →
      lookupPath s ([] ++ [n]) = some e := by
    intro n e hl
    exact hl
  unfold reapRoot at h2
  have hp2 : Post1 cfg [] s t2 := by
    have hpr := Post1_reap cfg s (sizeOf s) s le_rfl [] tc hwf hcov hp
    rw [h2] at hpr
    exact hpr
  have hrp : Reaped cfg s [] t2 := reapList_reaped cfg s tc [] t2 df1 dd1 h2
  have hs2 : syncList cfg [] s t2 false = (t2, false, 0, 0, 0) :=
    syncList_nop cfg (sizeOf s) s le_rfl [] t2 hp2
  constructor
  · unfold syncRootT
    rw [hs2]
    rfl
  · unfold reapRoot
    exact reapList_nop cfg s t2 [] hrp

/-- Session / trees for the C6 witness: a normal source tree with a nested
directory, a non-empty target with stale content, one ignore rule, delete
flag off, `file` mode. -/
def cfgW : C6Cfg := ⟨"file", 1, fun p => p = ["skipme"], false⟩

/-- Witness source: `a/b.txt`, `c.txt`, and an ignored `skipme`. -/
def sW : Dirt :=
  Dirt.cons "a" (Entry.dir 1 0 (Dirt.cons "b.txt" (Entry.file 5 3 "bb") Dirt.nil))
    (Dirt.cons "c.txt" (Entry.file 6 2 "cc")
      (Dirt.cons "skipme" (Entry.file 1 1 "s") Dirt.nil))

/-- Witness target: stale `junk/z`, an outdated `c.txt`, and the log file. -/
def tW : Dirt :=
  Dirt.cons "junk" (Entry.dir 0 0 (Dirt.cons "z" (Entry.file 0 1 "zz") Dirt.nil))
    (Dirt.cons "c.txt" (Entry.file 9 2 "dd")
      (Dirt.cons "synclog.txt" (Entry.file 0 0 "L") Dirt.nil))

/-- Target after the witness sync phase. -/
def tW1 : Dirt :=
  Dirt.cons "junk" (Entry.dir 0 0 (Dirt.cons "z" (Entry.file 0 1 "zz") Dirt.nil))
    (Dirt.cons "c.txt" (Entry.file 6 2 "cc")
      (Dirt.cons "synclog.txt" (Entry.file 0 0 "L")
        (Dirt.cons "a" (Entry.dir 0 0
          (Dirt.cons "b.txt" (Entry.file 5 3 "bb") Dirt.nil)) Dirt.nil)))

/-- Target after the witness reap phase. -/
def tW2 : Dirt :=
  Dirt.cons "c.txt" (Entry.file 6 2 "cc")
    (Dirt.cons "synclog.txt" (Entry.file 0 0 "L")
      (Dirt.cons "a" (Entry.dir 0 0
        (Dirt.cons "b.txt" (Entry.file 5 3 "bb") Dirt.nil)) Dirt.nil))

/-- Witness for `C6_thm`: the first pass adds `a/b.txt`, modifies `c.txt`,
deletes `junk/z` and `junk`, all without failures; the second pass is a
complete no-op. -/
theorem C6_wit :
    ((cfgW.mode = "date" ∨ cfgW.mode = "file") ∧
     dirtWFb sW = true ∧
     noFD cfgW [] sW tW = true ∧
     syncRootT cfgW sW tW = (tW1, 1, 1, 0) ∧
     reapRoot cfgW sW tW1 = (tW2, 1, 1, 0)) ∧
    (syncRootT cfgW sW tW2 = (tW2, 0, 0, 0) ∧
     reapRoot cfgW sW tW2 = (tW2, 0, 0, 0)) :=
  ⟨⟨Or.inr rfl, by decide, by decide, by decide, by decide⟩,
   C6_thm cfgW sW tW tW1 tW2 1 1 1 1 (Or.inr rfl) (by decide) (by decide)
     (by decide) (by decide)⟩

end SyncSpec
